import Mathlib

/-!
Shallow embedding of the particle-life simulation core of `src/src/App.tsx`
(repository trevsm/hashlife-sim): the RNG, the rule-matrix helpers, the
uniform-grid spatial index, the pairwise force model with the settling
dashpot, and the integrator with wrap/reflect boundaries.  JavaScript
numbers are modelled as real numbers; typed arrays as total maps `ℕ → ℝ`
together with an allocation length.
-/

namespace ParticleLife

noncomputable section

/-- `clamp(v, lo, hi) = Math.max(lo, Math.min(hi, v))` (App.tsx lines 121-123). -/
def clamp (v lo hi : ℝ) : ℝ := max lo (min hi v)

/-- `WORLD_SIZE = 2.0`, the side of the `[-1,1]` square world (line 126). -/
def WORLD_SIZE : ℝ := 2

/-- `wrapCoord` (lines 128-132): shift a coordinate that left `[-1,1]` by one
world size. -/
def wrapCoord (x : ℝ) : ℝ :=
  if x < -1 then x + WORLD_SIZE else if x > 1 then x - WORLD_SIZE else x

/-- `torusDelta` (lines 133-138): the wrapped difference `b - a` on the torus. -/
def torusDelta (a b : ℝ) : ℝ :=
  let d := b - a
  if d > 1 then d - WORLD_SIZE else if d < -1 then d + WORLD_SIZE else d

/-- `accelMag` (lines 141-148): hard-core repulsion below `rMin`, a
coefficient-scaled bell between `rMin` and 1.  `1e-6` guards the division
when `rMin` approaches 1. -/
def accelMag (a r rMin : ℝ) : ℝ :=
  if r ≤ 0 then 0
  else if r < rMin then r / rMin - 1
  else
    let denom := max (1 / 1000000) (1 - rMin)
    a * (1 - |1 + rMin - 2 * r| / denom)

/-- `smoothstep01` (lines 315-318). -/
def smoothstep01 (t : ℝ) : ℝ :=
  let x := clamp t 0 1
  x * x * (3 - 2 * x)

/-- The settling weight `w = 1 - smoothstep01((r - rMin) / max(1e-6, settleR - rMin))`
of step (lines 385-386): 1 near `rMin`, vanishing towards `settleR`. -/
def settleWeight (rMin settleR r : ℝ) : ℝ :=
  1 - smoothstep01 ((r - rMin) / max (1 / 1000000) (settleR - rMin))

/-- The clamped settling damping coefficient `c = min(max(settleK, 0), 2/dt)`
of step (lines 382-383). -/
def settleC (settleK dt : ℝ) : ℝ := min (max settleK 0) (2 / dt)

/-- The configuration bundle `Spec` (lines 30-55); the rendering-only fields
(`pixelScale`, `overlays`) are omitted, they are never read by the core. -/
structure SpecC where
  N : ℕ
  K : ℕ
  seed : ℕ
  A : List (List ℝ)
  rMin : ℝ
  R : ℝ
  dt : ℝ
  drag : ℝ
  vMax : ℝ
  wrap : Bool
  cellSize : ℝ
  genMatrix : Bool
  mutualOnly : Bool
  settleEnabled : Bool
  settleK : ℝ
  settleR : ℝ

/-- The simulation state `Sim` (lines 198-220).  Typed arrays become total
maps `ℕ → ℝ` (resp. `ℕ → ℤ` for the Int32 grid arrays); all per-particle
buffers are allocated together with length `len = spec.N` at init, recorded
once in `len`. -/
@[ext]
structure Sim where
  spec : SpecC
  K : ℕ
  len : ℕ
  x : ℕ → ℝ
  y : ℕ → ℝ
  vx : ℕ → ℝ
  vy : ℕ → ℝ
  type : ℕ → ℕ
  fx : ℕ → ℝ
  fy : ℕ → ℝ
  gridDim : ℕ
  cellHead : ℕ → ℤ
  next : ℕ → ℤ
  rngState : ℕ
  frame : ℕ
  lastMaxSpeed : ℝ
  A : List (List ℝ)

/-- Matrix entry access `A[i][j]` (out-of-range reads modelled as 0). -/
def mget (A : List (List ℝ)) (i j : ℕ) : ℝ := (A.getD i []).getD j 0

/-! Per-pair local quantities of the neighbor callback in `step`
(lines 337-364), named so the accumulation can be characterised. -/

/-- `dx` of the pair (line 338). -/
def pdx (s : Sim) (i j : ℕ) : ℝ :=
  if s.spec.wrap then torusDelta (s.x i) (s.x j) else s.x j - s.x i

/-- `dy` of the pair (line 339). -/
def pdy (s : Sim) (i j : ℕ) : ℝ :=
  if s.spec.wrap then torusDelta (s.y i) (s.y j) else s.y j - s.y i

/-- `r2 = dx*dx + dy*dy` (line 340). -/
def pr2 (s : Sim) (i j : ℕ) : ℝ := pdx s i j * pdx s i j + pdy s i j * pdy s i j

/-- `r = Math.sqrt(r2)` (line 342). -/
def pr (s : Sim) (i j : ℕ) : ℝ := Real.sqrt (pr2 s i j)

/-- `invr = 1/r` (line 344). -/
def pinvr (s : Sim) (i j : ℕ) : ℝ := 1 / pr s i j

/-- `ux = dx * invr` (line 345). -/
def pux (s : Sim) (i j : ℕ) : ℝ := pdx s i j * pinvr s i j

/-- `uy = dy * invr` (line 346). -/
def puy (s : Sim) (i j : ℕ) : ℝ := pdy s i j * pinvr s i j

/-- The mutual-only gate fires (lines 354-359): `mutualOnly` is set and the
pair is not mutually attractive. -/
def pgate (s : Sim) (i j : ℕ) : Prop :=
  s.spec.mutualOnly ∧
    ¬(mget s.A (s.type i) (s.type j) > 0 ∧ mget s.A (s.type j) (s.type i) > 0)

instance (s : Sim) (i j : ℕ) : Decidable (pgate s i j) := by
  unfold pgate; infer_instance

/-- `aij` after the optional gating (lines 350, 354-359). -/
def paij (s : Sim) (i j : ℕ) : ℝ :=
  if pgate s i j then 0 else mget s.A (s.type i) (s.type j)

/-- `aji` after the optional gating (lines 351, 354-359). -/
def paji (s : Sim) (i j : ℕ) : ℝ :=
  if pgate s i j then 0 else mget s.A (s.type j) (s.type i)

/-- `fij = accelMag(aij, r, rMin)` (line 363). -/
def pfij (s : Sim) (i j : ℕ) : ℝ := accelMag (paij s i j) (pr s i j) s.spec.rMin

/-- `fji = accelMag(aji, r, rMin)` (line 364). -/
def pfji (s : Sim) (i j : ℕ) : ℝ := accelMag (paji s i j) (pr s i j) s.spec.rMin

/-- The settling condition on the (gated) pair coefficients and the distance
(lines 377-378): `mutualPos && r > rMin && r < settleR`. -/
def psettle (s : Sim) (i j : ℕ) : Prop :=
  paij s i j > 0 ∧ paji s i j > 0 ∧ pr s i j > s.spec.rMin ∧ pr s i j < s.spec.settleR

instance (s : Sim) (i j : ℕ) : Decidable (psettle s i j) := by
  unfold psettle; infer_instance

/-- `vRelRad = (vi - vj)·u` (lines 379-380). -/
def pvRelRad (s : Sim) (i j : ℕ) : ℝ :=
  (s.vx i - s.vx j) * pux s i j + (s.vy i - s.vy j) * puy s i j

/-- `fDamp = -c * vRelRad * w` (line 388). -/
def pfDamp (s : Sim) (i j : ℕ) : ℝ :=
  -settleC s.spec.settleK s.spec.dt * pvRelRad s i j *
    settleWeight s.spec.rMin s.spec.settleR (pr s i j)

/-- One neighbor-callback body of `step` (lines 334-398): skip already-seen
or degenerate pairs, then scatter the two non-reciprocal magnitudes and the
settling dashpot onto both particles' force accumulators. -/
def pairAccum (s : Sim) (i j : ℕ) : Sim :=
  if j ≤ i then s
  else if pr2 s i j = 0 then s
  else if pr s i j > s.spec.R then s
  else
    let s1 :=
      if pfij s i j ≠ 0 then
        { s with fx := Function.update s.fx i (s.fx i + pfij s i j * pux s i j),
                 fy := Function.update s.fy i (s.fy i + pfij s i j * puy s i j) }
      else s
    let s2 :=
      if pfji s i j ≠ 0 then
        { s1 with fx := Function.update s1.fx j (s1.fx j - pfji s i j * pux s i j),
                  fy := Function.update s1.fy j (s1.fy j - pfji s i j * puy s i j) }
      else s1
    if s.spec.settleEnabled then
      if psettle s i j then
        if settleWeight s.spec.rMin s.spec.settleR (pr s i j) > 0 then
          let s3 :=
            { s2 with
              fx := Function.update s2.fx i (s2.fx i + pfDamp s i j * pux s i j),
              fy := Function.update s2.fy i (s2.fy i + pfDamp s i j * puy s i j) }
          { s3 with
            fx := Function.update s3.fx j (s3.fx j - pfDamp s i j * pux s i j),
            fy := Function.update s3.fy j (s3.fy j - pfDamp s i j * puy s i j) }
        else s2
      else s2
    else s2

/-- The net settling increment on particle `i`'s `fx` accumulator. -/
def sDampX (s : Sim) (i j : ℕ) : ℝ :=
  if s.spec.settleEnabled then
    if psettle s i j then
      if settleWeight s.spec.rMin s.spec.settleR (pr s i j) > 0 then
        pfDamp s i j * pux s i j
      else 0
    else 0
  else 0

/-- `s` with the settling dashpot disabled and everything else unchanged. -/
def settleOff (s : Sim) : Sim :=
  { s with spec := { s.spec with settleEnabled := false } }

/-- Follows the words of claim C7 (and spec section 4.2): the settling dashpot
contributes, to particle `i` of a processed pair `i < j` within cutoff,
exactly the vector of magnitude `c * vRel * w(r)` opposing the radial
relative velocity when settling is enabled, the gated coefficients are both
positive and `rMin < r < settleR`; and nothing otherwise. -/
def settleSpecTerm (s : Sim) (i j : ℕ) : ℝ × ℝ :=
  if i < j ∧ pr2 s i j ≠ 0 ∧ pr s i j ≤ s.spec.R ∧ s.spec.settleEnabled ∧
      paij s i j > 0 ∧ paji s i j > 0 ∧
      s.spec.rMin < pr s i j ∧ pr s i j < s.spec.settleR then
    (pfDamp s i j * pux s i j, pfDamp s i j * puy s i j)
  else (0, 0)

/-- A small concrete configuration used by witnesses. -/
def specTriv : SpecC where
  N := 0
  K := 2
  seed := 0
  A := []
  rMin := 1 / 10
  R := 1 / 2
  dt := 1 / 100
  drag := 0
  vMax := 1
  wrap := false
  cellSize := 1 / 10
  genMatrix := false
  mutualOnly := false
  settleEnabled := false
  settleK := 0
  settleR := 1 / 5

/-- A small concrete simulation state used by witnesses. -/
def trivSim : Sim where
  spec := specTriv
  K := 2
  len := 0
  x := fun _ => 0
  y := fun _ => 0
  vx := fun _ => 0
  vy := fun _ => 0
  type := fun _ => 0
  fx := fun _ => 0
  fy := fun _ => 0
  gridDim := 20
  cellHead := fun _ => 0
  next := fun _ => 0
  rngState := 0
  frame := 0
  lastMaxSpeed := 0
  A := []

/-- Concrete two-particle state for C3's witness: types 0 and 1 at distance
1/2 along the x axis, `A[0][1] = 1`, `A[1][0] = 0`. -/
def simC3 : Sim :=
  { trivSim with
    spec := { specTriv with N := 2, rMin := 1 / 4, R := 1 }
    len := 2
    x := fun k => if k = 0 then 0 else 1 / 2
    type := fun k => k
    A := [[5, 1], [0, 7]] }

/-- Concrete state for C5's counterexample: `mutualOnly` set, the pair not
mutually attractive, separation 1/2 below `rMin = 3/4`. -/
def simC5 : Sim :=
  { trivSim with
    spec := { specTriv with N := 2, rMin := 3 / 4, R := 1, mutualOnly := true }
    len := 2
    x := fun k => if k = 0 then 0 else 1 / 2
    type := fun k => k
    A := [[1, -1], [1, 1]] }

/-- Concrete state for C5's witness: as `simC5` but separation 1 in the bell
region (`rMin = 1/2 ≤ r = 1 ≤ R = 1`). -/
def simC5w : Sim :=
  { trivSim with
    spec := { specTriv with N := 2, rMin := 1 / 2, R := 1, mutualOnly := true }
    len := 2
    x := fun k => if k = 0 then 0 else 1
    type := fun k => k
    A := [[1, -1], [1, 1]] }

/-- The net settling increment on particle `i`'s `fy` accumulator. -/
def sDampY (s : Sim) (i j : ℕ) : ℝ :=
  if s.spec.settleEnabled then
    if psettle s i j then
      if settleWeight s.spec.rMin s.spec.settleR (pr s i j) > 0 then
        pfDamp s i j * puy s i j
      else 0
    else 0
  else 0

/-! The uniform grid (lines 269-312). -/

/-- One axis of `cellIndexOf` (lines 270-271):
`clamp(Math.floor((x + 1) * 0.5 * gridDim), 0, gridDim - 1)`. -/
def cellCoord (x : ℝ) (gridDim : ℕ) : ℤ :=
  max 0 (min ((gridDim : ℤ) - 1) ⌊(x + 1) * (1 / 2) * (gridDim : ℝ)⌋)

/-- `cellIndexOf` (lines 269-273), row-major. -/
def cellIndexOf (x y : ℝ) (gridDim : ℕ) : ℕ :=
  (cellCoord x gridDim + cellCoord y gridDim * (gridDim : ℤ)).toNat

/-- The cell of particle `p` by its current position. -/
def cellOf (s : Sim) (p : ℕ) : ℕ := cellIndexOf (s.x p) (s.y p) s.gridDim

/-- The loop body of `rebuildGrid` (lines 279-283): push `i` at the head of
its cell's intrusive list. -/
def insertParticle (gdim : ℕ) (s : Sim) (i : ℕ) : Sim :=
  let idx := cellIndexOf (s.x i) (s.y i) gdim
  { s with next := Function.update s.next i (s.cellHead idx),
           cellHead := Function.update s.cellHead idx (i : ℤ) }

/-- `rebuildGrid` (lines 274-284): clear all heads to -1, then reinsert the
first `min(spec.N, buffer length)` particles. -/
def rebuildGrid (sim : Sim) : Sim :=
  (List.range (min sim.spec.N sim.len)).foldl (insertParticle sim.gridDim)
    { sim with cellHead := fun _ => -1 }

/-- The `while (j !== -1)` walk of one cell's intrusive list
(lines 305-309), fuelled; the fuel is immaterial once it reaches the list
length. -/
def chainList (next : ℕ → ℤ) : ℕ → ℤ → List ℕ
  | 0, _ => []
  | fuel + 1, j => if j = -1 then [] else j.toNat :: chainList next fuel (next j.toNat)

/-- `forEachNeighbor` (lines 285-312) as the list of particle indices the
callback receives, in visit order: the `(2*reach+1)²` block of cells around
`i`'s cell, wrapped modulo `gridDim` under wrap and range-checked otherwise,
each cell's list walked and `i` itself skipped. -/
def neighborList (sim : Sim) (i : ℕ) : List ℕ :=
  let gdim := sim.gridDim
  let cx := cellCoord (sim.x i) gdim
  let cy := cellCoord (sim.y i) gdim
  let reach : ℕ := (max 1 ⌈sim.spec.R / sim.spec.cellSize⌉).toNat
  let fuel := min sim.spec.N sim.len
  (List.range (2 * reach + 1)).flatMap fun dyi =>
    (List.range (2 * reach + 1)).flatMap fun dxi =>
      let dy : ℤ := (dyi : ℤ) - (reach : ℤ)
      let dx : ℤ := (dxi : ℤ) - (reach : ℤ)
      let nx0 := cx + dx
      let ny0 := cy + dy
      if sim.spec.wrap then
        let nx := (nx0 % (gdim : ℤ) + (gdim : ℤ)) % (gdim : ℤ)
        let ny := (ny0 % (gdim : ℤ) + (gdim : ℤ)) % (gdim : ℤ)
        (chainList sim.next fuel (sim.cellHead (nx + ny * (gdim : ℤ)).toNat)).filter
          (fun j => j ≠ i)
      else
        if nx0 < 0 ∨ ny0 < 0 ∨ nx0 ≥ (gdim : ℤ) ∨ ny0 ≥ (gdim : ℤ) then []
        else
          (chainList sim.next fuel
            (sim.cellHead (nx0 + ny0 * (gdim : ℤ)).toNat)).filter (fun j => j ≠ i)

/-! The integrator (lines 401-444). -/

/-- The dragged and speed-clamped x-velocity of particle `i`
(lines 407-415). -/
def newVx (sp : SpecC) (dragFactor vMax2 : ℝ) (s : Sim) (i : ℕ) : ℝ :=
  let vx1 := (s.vx i + sp.dt * s.fx i) * dragFactor
  let vy1 := (s.vy i + sp.dt * s.fy i) * dragFactor
  let v2 := vx1 * vx1 + vy1 * vy1
  if v2 > vMax2 then vx1 * (sp.vMax / Real.sqrt v2) else vx1

/-- The dragged and speed-clamped y-velocity of particle `i`
(lines 407-415). -/
def newVy (sp : SpecC) (dragFactor vMax2 : ℝ) (s : Sim) (i : ℕ) : ℝ :=
  let vx1 := (s.vx i + sp.dt * s.fx i) * dragFactor
  let vy1 := (s.vy i + sp.dt * s.fy i) * dragFactor
  let v2 := vx1 * vx1 + vy1 * vy1
  if v2 > vMax2 then vy1 * (sp.vMax / Real.sqrt v2) else vy1

/-- First reflection (lines 425-428): mirror a coordinate that undershot -1. -/
def reflLo (x0 : ℝ) : ℝ := if x0 < -1 then -1 + (-1 - x0) else x0

/-- Both reflections (lines 425-440): the coordinate after the two mirror
steps, the second testing the value produced by the first. -/
def reflPos (x0 : ℝ) : ℝ := if reflLo x0 > 1 then 1 - (reflLo x0 - 1) else reflLo x0

/-- The velocity sign fix-ups accompanying the two reflections
(lines 425-440). -/
def reflVel (x0 v : ℝ) : ℝ :=
  let v1 := if x0 < -1 then |v| else v
  if reflLo x0 > 1 then -|v1| else v1

/-- One integration body (lines 406-444) for particle `i` on the running
(state, maximum speed) pair. -/
def integrateOne (sp : SpecC) (dragFactor vMax2 : ℝ) (sm : Sim × ℝ) (i : ℕ) :
    Sim × ℝ :=
  let s := sm.1
  let vx2 := newVx sp dragFactor vMax2 s i
  let vy2 := newVy sp dragFactor vMax2 s i
  let speed := Real.sqrt (vx2 * vx2 + vy2 * vy2)
  let maxSpeed := if speed > sm.2 then speed else sm.2
  let nx0 := s.x i + sp.dt * vx2
  let ny0 := s.y i + sp.dt * vy2
  if sp.wrap then
    ({ s with x := Function.update s.x i (wrapCoord nx0),
              y := Function.update s.y i (wrapCoord ny0),
              vx := Function.update s.vx i vx2,
              vy := Function.update s.vy i vy2 }, maxSpeed)
  else
    ({ s with x := Function.update s.x i (reflPos nx0),
              y := Function.update s.y i (reflPos ny0),
              vx := Function.update s.vx i (reflVel nx0 vx2),
              vy := Function.update s.vy i (reflVel ny0 vy2) }, maxSpeed)

/-! `step` (lines 320-447), phase by phase. -/

/-- `fx.fill(0, 0, N)` and `fy.fill(0, 0, N)` (lines 328-329). -/
def zeroForces (s : Sim) (N : ℕ) : Sim :=
  { s with fx := fun i => if i < N then 0 else s.fx i,
           fy := fun i => if i < N then 0 else s.fy i }

/-- The non-reciprocal accumulation pass (lines 332-399): for each particle
in order, fold the pair body over its neighbor list. -/
def accumForces (s : Sim) (N : ℕ) : Sim :=
  (List.range N).foldl
    (fun t i => (neighborList t i).foldl (fun u j => pairAccum u i j) t) s

/-- The integration pass (lines 401-444) with its running maximum speed. -/
def integratePhase (sp : SpecC) (N : ℕ) (s : Sim) : Sim × ℝ :=
  let dragFactor := max 0 (1 - sp.drag * sp.dt)
  let vMax2 := sp.vMax * sp.vMax
  (List.range N).foldl (integrateOne sp dragFactor vMax2) (s, 0)

/-- `step` (lines 320-447): rebuild the grid, zero the first `N` force
accumulators, accumulate pair forces, integrate, record diagnostics. -/
def step (sim : Sim) : Sim :=
  let sp := sim.spec
  let N := min sp.N sim.len
  let sm := integratePhase sp N (accumForces (zeroForces (rebuildGrid sim) N) N)
  { sm.1 with lastMaxSpeed := sm.2, frame := (sm.1).frame + 1 }

/-! The RNG (lines 109-120) and `initSim` (lines 222-266). -/

/-- One draw of the `mulberry32` closure (lines 109-117) on the 32-bit state:
the updated state and the raw 32-bit output.  All JavaScript int32 bit
operations are modelled on the canonical bit patterns modulo `2^32`; the
returned double is exactly `output / 2^32`. -/
def mulberryNext (t0 : ℕ) : ℕ × ℕ :=
  let t := (t0 + 0x6d2b79f5) % 2 ^ 32
  let r1 := (t ^^^ (t >>> 15)) * (1 ||| t) % 2 ^ 32
  let r2 := (r1 ^^^ ((r1 + (r1 ^^^ (r1 >>> 7)) * (61 ||| r1)) % 2 ^ 32)) % 2 ^ 32
  (t, (r2 ^^^ (r2 >>> 14)) % 2 ^ 32)

/-- `randRange(rng, a, b) = a + (b - a) * rng()` (lines 118-120), with `v`
the raw 32-bit draw. -/
def randRange (v : ℕ) (a b : ℝ) : ℝ := a + (b - a) * ((v : ℝ) / 2 ^ 32)

/-- `genRingPreset` (lines 161-169): `others` everywhere, `self` on the
diagonal, `next` on the next colour; the `next` write comes last in the
source, so it wins when `(i+1) % K = i`. -/
def genRingPreset (K : ℕ) (self next others : ℝ) : List (List ℝ) :=
  (List.range K).map fun i =>
    (List.range K).map fun j =>
      if j = (i + 1) % K then next else if j = i then self else others

/-- A stored rule-matrix record `{K, A}` (line 174). -/
structure LSRecord where
  K : ℕ
  A : List (List ℝ)

/-- `loadMatrixFromLS` (lines 177-195): reject a missing/unparsable record
(modelled as `none`), a record for a different `K`, and any malformed shape.
The ambient localStorage contents are an explicit parameter. -/
def loadMatrixFromLS (ls : Option LSRecord) (K : ℕ) : Option (List (List ℝ)) :=
  match ls with
  | none => none
  | some ob =>
    if ob.K ≠ K then none
    else if ob.A.length ≠ K ∨ ∃ row ∈ ob.A, row.length ≠ K then none
    else some ob.A

/-- The buffers produced by `initSim`'s placement loop. -/
structure InitBufs where
  x : ℕ → ℝ
  y : ℕ → ℝ
  vx : ℕ → ℝ
  vy : ℕ → ℝ
  type : ℕ → ℕ
  rngState : ℕ

/-- The placement loop of `initSim` (lines 236-242): five sequential RNG
draws per particle.  `Math.floor(rng() * K)` is the exact natural division
`v * K / 2^32` of the raw draw. -/
def initParticles (N K : ℕ) (t0 : ℕ) : InitBufs :=
  (List.range N).foldl
    (fun b i =>
      let d1 := mulberryNext b.rngState
      let d2 := mulberryNext d1.1
      let d3 := mulberryNext d2.1
      let d4 := mulberryNext d3.1
      let d5 := mulberryNext d4.1
      { x := Function.update b.x i (randRange d1.2 (-1) 1)
        y := Function.update b.y i (randRange d2.2 (-1) 1)
        vx := Function.update b.vx i (randRange d3.2 (-(1 / 20)) (1 / 20))
        vy := Function.update b.vy i (randRange d4.2 (-(1 / 20)) (1 / 20))
        type := Function.update b.type i (d5.2 * K / 2 ^ 32)
        rngState := d5.1 })
    { x := fun _ => 0, y := fun _ => 0, vx := fun _ => 0, vy := fun _ => 0,
      type := fun _ => 0, rngState := t0 }

/-- `initSim` (lines 222-266): seed the RNG (`seed >>> 0`), choose the matrix
(stored → ring preset when `genMatrix` → `spec.A`), place the particles,
allocate the zeroed grid and force buffers. -/
def initSim (spec : SpecC) (ls : Option LSRecord) (seedOverride : Option ℕ) :
    Sim :=
  let seed := seedOverride.getD spec.seed
  let A := (loadMatrixFromLS ls spec.K).getD
    (if spec.genMatrix then genRingPreset spec.K (9 / 10) (6 / 10) 0 else spec.A)
  let bufs := initParticles spec.N spec.K (seed % 2 ^ 32)
  { spec := spec
    K := spec.K
    len := spec.N
    x := bufs.x
    y := bufs.y
    vx := bufs.vx
    vy := bufs.vy
    type := bufs.type
    fx := fun _ => 0
    fy := fun _ => 0
    gridDim := (max 1 ⌈WORLD_SIZE / spec.cellSize⌉).toNat
    cellHead := fun _ => 0
    next := fun _ => 0
    rngState := bufs.rngState
    frame := 0
    lastMaxSpeed := 0
    A := A }

/-- `init` followed by `n` frames: one full run of the core. -/
def runSim (spec : SpecC) (ls : Option LSRecord) (seed : ℕ) (n : ℕ) : Sim :=
  step^[n] (initSim spec ls (some seed))

/-- A well-formed `K`×`K` rule matrix. -/
def matrixWF (A : List (List ℝ)) (K : ℕ) : Prop :=
  A.length = K ∧ ∀ row ∈ A, row.length = K

/-- A malformed configuration for C8: `K = 2` but a 1×1 matrix and
`genMatrix` unset. -/
def specBad : SpecC := { specTriv with K := 2, A := [[0]], genMatrix := false }

/-- A configuration requesting matrix generation, for C8's witness. -/
def specGen : SpecC := { specTriv with A := [[0]], genMatrix := true }

/-- Concrete state for C1's counterexample: one particle at `x = 0.9` with
unit velocity, `dt = 10`, `vMax = 1`, no drag, wrap mode, a single grid
cell. -/
def simC1 : Sim :=
  { trivSim with
    spec := { specTriv with
      N := 1
      dt := 10
      vMax := 1
      drag := 0
      wrap := true
      cellSize := 2
      R := 2
      rMin := 1 / 2 }
    len := 1
    x := fun _ => 9 / 10
    vx := fun _ => 1
    gridDim := 1 }

/-- Concrete state for C2's counterexample: wrap mode with a single grid
cell (`cellSize = 2`, `gridDim = 1`) and `reach = 1`, so the scanned 3×3
block hits the one cell nine times; two particles at torus distance 1/2,
within the cutoff `R = 1`. -/
def simC2 : Sim :=
  { trivSim with
    spec := { specTriv with
      N := 2
      wrap := true
      cellSize := 2
      R := 1
      rMin := 1 / 8 }
    len := 2
    x := fun k => if k = 0 then -(1 / 4) else 1 / 4
    gridDim := 1 }

/-- The same two-particle configuration with wrap disabled: the
range-checked scan visits the single cell only once. -/
def simC2n : Sim :=
  { simC2 with spec := { simC2.spec with wrap := false } }

/-- `t` agrees with `s` on every field except the force accumulators. -/
def SameEnv (s t : Sim) : Prop :=
  t.x = s.x ∧ t.y = s.y ∧ t.vx = s.vx ∧ t.vy = s.vy ∧ t.type = s.type ∧
    t.spec = s.spec ∧ t.len = s.len ∧ t.gridDim = s.gridDim ∧
    t.cellHead = s.cellHead ∧ t.next = s.next ∧ t.rngState = s.rngState ∧
    t.frame = s.frame ∧ t.lastMaxSpeed = s.lastMaxSpeed ∧ t.A = s.A

end

/-! Fold invariants. -/

theorem foldl_preserve {α β : Type} (f : β → α → β) (P : β → Prop)
    (h : ∀ b a, P b → P (f b a)) :
    ∀ (l : List α) (b : β), P b → P (List.foldl f b l) := by
  intro l
  induction l with
  | nil => intro b hb; exact hb
  | cons a t ih => intro b hb; exact ih (f b a) (h b a hb)

theorem foldl_preserve_mem {α β : Type} (f : β → α → β) (P : β → Prop)
    (l : List α) (h : ∀ b a, a ∈ l → P b → P (f b a)) :
    ∀ b, P b → P (List.foldl f b l) := by
  induction l with
  | nil => intro b hb; exact hb
  | cons a t ih =>
    intro b hb
    exact ih (fun b a ha hb => h b a (List.mem_cons_of_mem _ ha) hb) (f b a)
      (h b a (List.mem_cons_self _ _) hb)

/-! Characterisation of one pair accumulation. -/

theorem pairAccum_noop (s : Sim) (i j : ℕ)
    (h : j ≤ i ∨ pr2 s i j = 0 ∨ pr s i j > s.spec.R) : pairAccum s i j = s := by
  unfold pairAccum
  by_cases h1 : j ≤ i
  · rw [if_pos h1]
  · rw [if_neg h1]
    by_cases h2 : pr2 s i j = 0
    · rw [if_pos h2]
    · rw [if_neg h2]
      rcases h with h | h | h
      · exact absurd h h1
      · exact absurd h h2
      · rw [if_pos h]

theorem pairAccum_frame (s : Sim) (i j : ℕ) :
    (pairAccum s i j).x = s.x ∧ (pairAccum s i j).y = s.y ∧
      (pairAccum s i j).vx = s.vx ∧ (pairAccum s i j).vy = s.vy ∧
      (pairAccum s i j).type = s.type ∧ (pairAccum s i j).spec = s.spec ∧
      (pairAccum s i j).len = s.len ∧ (pairAccum s i j).gridDim = s.gridDim ∧
      (pairAccum s i j).cellHead = s.cellHead ∧ (pairAccum s i j).next = s.next ∧
      (pairAccum s i j).rngState = s.rngState ∧ (pairAccum s i j).frame = s.frame ∧
      (pairAccum s i j).lastMaxSpeed = s.lastMaxSpeed ∧
      (pairAccum s i j).A = s.A ∧ (pairAccum s i j).K = s.K := by
  unfold pairAccum
  split_ifs <;>
    exact ⟨rfl, rfl, rfl, rfl, rfl, rfl, rfl, rfl, rfl, rfl, rfl, rfl, rfl, rfl, rfl⟩

theorem pairAccum_fx_i (s : Sim) (i j : ℕ) (hij : i < j) (h2 : pr2 s i j ≠ 0)
    (hR : ¬ pr s i j > s.spec.R) :
    (pairAccum s i j).fx i = s.fx i + pfij s i j * pux s i j + sDampX s i j := by
  have hne : i ≠ j := Nat.ne_of_lt hij
  unfold pairAccum sDampX
  rw [if_neg (not_le.mpr hij), if_neg h2, if_neg hR]
  split_ifs <;>
    simp_all [Function.update_same, Function.update_noteq hne]

theorem pairAccum_fy_i (s : Sim) (i j : ℕ) (hij : i < j) (h2 : pr2 s i j ≠ 0)
    (hR : ¬ pr s i j > s.spec.R) :
    (pairAccum s i j).fy i = s.fy i + pfij s i j * puy s i j + sDampY s i j := by
  have hne : i ≠ j := Nat.ne_of_lt hij
  unfold pairAccum sDampY
  rw [if_neg (not_le.mpr hij), if_neg h2, if_neg hR]
  split_ifs <;>
    simp_all [Function.update_same, Function.update_noteq hne]

theorem pairAccum_fx_j (s : Sim) (i j : ℕ) (hij : i < j) (h2 : pr2 s i j ≠ 0)
    (hR : ¬ pr s i j > s.spec.R) :
    (pairAccum s i j).fx j = s.fx j - pfji s i j * pux s i j - sDampX s i j := by
  have hne : j ≠ i := (Nat.ne_of_lt hij).symm
  unfold pairAccum sDampX
  rw [if_neg (not_le.mpr hij), if_neg h2, if_neg hR]
  split_ifs <;>
    simp_all [Function.update_same, Function.update_noteq hne]

theorem pairAccum_fy_j (s : Sim) (i j : ℕ) (hij : i < j) (h2 : pr2 s i j ≠ 0)
    (hR : ¬ pr s i j > s.spec.R) :
    (pairAccum s i j).fy j = s.fy j - pfji s i j * puy s i j - sDampY s i j := by
  have hne : j ≠ i := (Nat.ne_of_lt hij).symm
  unfold pairAccum sDampY
  rw [if_neg (not_le.mpr hij), if_neg h2, if_neg hR]
  split_ifs <;>
    simp_all [Function.update_same, Function.update_noteq hne]

theorem pairAccum_fx_other (s : Sim) (i j k : ℕ) (hki : k ≠ i) (hkj : k ≠ j) :
    (pairAccum s i j).fx k = s.fx k := by
  unfold pairAccum
  split_ifs <;> simp [Function.update_noteq hki, Function.update_noteq hkj]

theorem pairAccum_fy_other (s : Sim) (i j k : ℕ) (hki : k ≠ i) (hkj : k ≠ j) :
    (pairAccum s i j).fy k = s.fy k := by
  unfold pairAccum
  split_ifs <;> simp [Function.update_noteq hki, Function.update_noteq hkj]

/-! Transport of the pair quantities along `settleOff`. -/

theorem pdx_settleOff (s : Sim) (i j : ℕ) : pdx (settleOff s) i j = pdx s i j := rfl

theorem pdy_settleOff (s : Sim) (i j : ℕ) : pdy (settleOff s) i j = pdy s i j := rfl

theorem pr2_settleOff (s : Sim) (i j : ℕ) : pr2 (settleOff s) i j = pr2 s i j := rfl

theorem pr_settleOff (s : Sim) (i j : ℕ) : pr (settleOff s) i j = pr s i j := rfl

theorem pux_settleOff (s : Sim) (i j : ℕ) : pux (settleOff s) i j = pux s i j := rfl

theorem puy_settleOff (s : Sim) (i j : ℕ) : puy (settleOff s) i j = puy s i j := rfl

theorem pfij_settleOff (s : Sim) (i j : ℕ) : pfij (settleOff s) i j = pfij s i j := rfl

theorem pfji_settleOff (s : Sim) (i j : ℕ) : pfji (settleOff s) i j = pfji s i j := rfl

theorem fx_settleOff (s : Sim) : (settleOff s).fx = s.fx := rfl

theorem fy_settleOff (s : Sim) : (settleOff s).fy = s.fy := rfl

theorem R_settleOff (s : Sim) : (settleOff s).spec.R = s.spec.R := rfl

theorem sDampX_settleOff (s : Sim) (i j : ℕ) : sDampX (settleOff s) i j = 0 := by
  unfold sDampX settleOff
  simp

theorem sDampY_settleOff (s : Sim) (i j : ℕ) : sDampY (settleOff s) i j = 0 := by
  unfold sDampY settleOff
  simp

/-- The convenient net description: the `fx`/`fy` increments on `i` and `j`
with and without settling. -/
theorem pairAccum_delta (s : Sim) (i j : ℕ) (hij : i < j) (h2 : pr2 s i j ≠ 0)
    (hR : ¬ pr s i j > s.spec.R) :
    (pairAccum s i j).fx i - (pairAccum (settleOff s) i j).fx i = sDampX s i j ∧
      (pairAccum s i j).fy i - (pairAccum (settleOff s) i j).fy i = sDampY s i j ∧
      (pairAccum s i j).fx j - (pairAccum (settleOff s) i j).fx j = -sDampX s i j ∧
      (pairAccum s i j).fy j - (pairAccum (settleOff s) i j).fy j = -sDampY s i j := by
  have h2' : pr2 (settleOff s) i j ≠ 0 := by rw [pr2_settleOff]; exact h2
  have hR' : ¬ pr (settleOff s) i j > (settleOff s).spec.R := by
    rw [pr_settleOff, R_settleOff]; exact hR
  refine ⟨?_, ?_, ?_, ?_⟩
  · rw [pairAccum_fx_i s i j hij h2 hR, pairAccum_fx_i (settleOff s) i j hij h2' hR',
      pfij_settleOff, pux_settleOff, fx_settleOff, sDampX_settleOff]
    ring
  · rw [pairAccum_fy_i s i j hij h2 hR, pairAccum_fy_i (settleOff s) i j hij h2' hR',
      pfij_settleOff, puy_settleOff, fy_settleOff, sDampY_settleOff]
    ring
  · rw [pairAccum_fx_j s i j hij h2 hR, pairAccum_fx_j (settleOff s) i j hij h2' hR',
      pfji_settleOff, pux_settleOff, fx_settleOff, sDampX_settleOff]
    ring
  · rw [pairAccum_fy_j s i j hij h2 hR, pairAccum_fy_j (settleOff s) i j hij h2' hR',
      pfji_settleOff, puy_settleOff, fy_settleOff, sDampY_settleOff]
    ring

theorem smoothstep01_mem (t : ℝ) : 0 ≤ smoothstep01 t ∧ smoothstep01 t ≤ 1 := by
  have h0 : 0 ≤ clamp t 0 1 := le_max_left 0 (min 1 t)
  have h1 : clamp t 0 1 ≤ 1 := by
    unfold clamp
    rcases le_total t 1 with h | h
    · exact max_le (by norm_num) (le_trans (min_le_right 1 t) h)
    · exact max_le (by norm_num) (min_le_left 1 t)
  unfold smoothstep01
  constructor
  · show 0 ≤ clamp t 0 1 * clamp t 0 1 * (3 - 2 * clamp t 0 1)
    nlinarith
  · show clamp t 0 1 * clamp t 0 1 * (3 - 2 * clamp t 0 1) ≤ 1
    nlinarith [mul_nonneg (sq_nonneg (1 - clamp t 0 1))
      (by linarith : (0 : ℝ) ≤ 1 + 2 * clamp t 0 1)]

theorem settleWeight_nonneg (rMin settleR r : ℝ) : 0 ≤ settleWeight rMin settleR r := by
  unfold settleWeight
  have := smoothstep01_mem ((r - rMin) / max (1 / 1000000) (settleR - rMin))
  linarith [this.2]

/-- The settling `fx` increment, with the weight guard folded away. -/
theorem sDampX_eq (s : Sim) (i j : ℕ) :
    sDampX s i j =
      (if s.spec.settleEnabled ∧ psettle s i j then pfDamp s i j * pux s i j
        else 0) := by
  unfold sDampX
  by_cases h : s.spec.settleEnabled ∧ psettle s i j
  · rw [if_pos h, if_pos h.1, if_pos h.2]
    by_cases hw : settleWeight s.spec.rMin s.spec.settleR (pr s i j) > 0
    · rw [if_pos hw]
    · have hw0 : settleWeight s.spec.rMin s.spec.settleR (pr s i j) = 0 :=
        le_antisymm (not_lt.mp hw) (settleWeight_nonneg _ _ _)
      have hd0 : pfDamp s i j = 0 := by
        unfold pfDamp
        rw [hw0, mul_zero]
      rw [if_neg hw, hd0, zero_mul]
  · rw [if_neg h]
    by_cases hen : s.spec.settleEnabled
    · have hps : ¬ psettle s i j := fun hq => h ⟨hen, hq⟩
      rw [if_pos hen, if_neg hps]
    · rw [if_neg hen]

/-- The settling `fy` increment, with the weight guard folded away. -/
theorem sDampY_eq (s : Sim) (i j : ℕ) :
    sDampY s i j =
      (if s.spec.settleEnabled ∧ psettle s i j then pfDamp s i j * puy s i j
        else 0) := by
  unfold sDampY
  by_cases h : s.spec.settleEnabled ∧ psettle s i j
  · rw [if_pos h, if_pos h.1, if_pos h.2]
    by_cases hw : settleWeight s.spec.rMin s.spec.settleR (pr s i j) > 0
    · rw [if_pos hw]
    · have hw0 : settleWeight s.spec.rMin s.spec.settleR (pr s i j) = 0 :=
        le_antisymm (not_lt.mp hw) (settleWeight_nonneg _ _ _)
      have hd0 : pfDamp s i j = 0 := by
        unfold pfDamp
        rw [hw0, mul_zero]
      rw [if_neg hw, hd0, zero_mul]
  · rw [if_neg h]
    by_cases hen : s.spec.settleEnabled
    · have hps : ¬ psettle s i j := fun hq => h ⟨hen, hq⟩
      rw [if_pos hen, if_neg hps]
    · rw [if_neg hen]

/-- The settling increments are exactly the claim-side dashpot vector. -/
theorem sDamp_eq_spec (s : Sim) (i j : ℕ) (hij : i < j) (h2 : pr2 s i j ≠ 0)
    (hR : ¬ pr s i j > s.spec.R) :
    sDampX s i j = (settleSpecTerm s i j).1 ∧
      sDampY s i j = (settleSpecTerm s i j).2 := by
  have hcond : (i < j ∧ pr2 s i j ≠ 0 ∧ pr s i j ≤ s.spec.R ∧ s.spec.settleEnabled ∧
      paij s i j > 0 ∧ paji s i j > 0 ∧
      s.spec.rMin < pr s i j ∧ pr s i j < s.spec.settleR)
      ↔ (s.spec.settleEnabled ∧ psettle s i j) := by
    unfold psettle
    constructor
    · rintro ⟨-, -, -, he, hq1, hq2, hq3, hq4⟩
      exact ⟨he, hq1, hq2, hq3, hq4⟩
    · rintro ⟨he, hq1, hq2, hq3, hq4⟩
      exact ⟨hij, h2, not_lt.mp hR, he, hq1, hq2, hq3, hq4⟩
  unfold settleSpecTerm
  rw [if_congr hcond rfl rfl, sDampX_eq, sDampY_eq]
  by_cases h : s.spec.settleEnabled ∧ psettle s i j
  · rw [if_pos h, if_pos h, if_pos h]
    exact ⟨rfl, rfl⟩
  · rw [if_neg h, if_neg h, if_neg h]
    exact ⟨rfl, rfl⟩

/-- C10.  The settling increment on particle `i` is exactly the negation of
the settling increment on particle `j` (per axis), so the dashpot conserves
the pair's total momentum even though the main pair forces are
non-reciprocal. -/
theorem C10_settling_antisymmetric (s : Sim) (i j : ℕ) :
    (pairAccum s i j).fx i - (pairAccum (settleOff s) i j).fx i
        = -((pairAccum s i j).fx j - (pairAccum (settleOff s) i j).fx j) ∧
      (pairAccum s i j).fy i - (pairAccum (settleOff s) i j).fy i
        = -((pairAccum s i j).fy j - (pairAccum (settleOff s) i j).fy j) ∧
      ((pairAccum s i j).fx i + (pairAccum s i j).fx j)
          - ((pairAccum (settleOff s) i j).fx i + (pairAccum (settleOff s) i j).fx j) = 0 ∧
      ((pairAccum s i j).fy i + (pairAccum s i j).fy j)
          - ((pairAccum (settleOff s) i j).fy i + (pairAccum (settleOff s) i j).fy j) = 0 := by
  by_cases hij : i < j
  · by_cases h2 : pr2 s i j = 0
    · have e1 : pairAccum s i j = s := pairAccum_noop s i j (Or.inr (Or.inl h2))
      have e2 : pairAccum (settleOff s) i j = settleOff s :=
        pairAccum_noop _ i j (Or.inr (Or.inl (by rw [pr2_settleOff]; exact h2)))
      rw [e1, e2, fx_settleOff, fy_settleOff]
      norm_num
    · by_cases hR : pr s i j > s.spec.R
      · have e1 : pairAccum s i j = s := pairAccum_noop s i j (Or.inr (Or.inr hR))
        have e2 : pairAccum (settleOff s) i j = settleOff s :=
          pairAccum_noop _ i j
            (Or.inr (Or.inr (by rw [pr_settleOff, R_settleOff]; exact hR)))
        rw [e1, e2, fx_settleOff, fy_settleOff]
        norm_num
      · obtain ⟨d1, d2, d3, d4⟩ := pairAccum_delta s i j hij h2 hR
        refine ⟨by rw [d1, d3]; ring, by rw [d2, d4]; ring, by linarith, by linarith⟩
  · have hle : j ≤ i := le_of_not_lt hij
    have e1 : pairAccum s i j = s := pairAccum_noop s i j (Or.inl hle)
    have e2 : pairAccum (settleOff s) i j = settleOff s :=
      pairAccum_noop _ i j (Or.inl hle)
    rw [e1, e2, fx_settleOff, fy_settleOff]
    norm_num

/-- C7 — amended.  The settling contribution to particle `i` of a processed
pair is exactly the claimed dashpot vector (magnitude `c * vRel * w(r)`
opposing the radial relative velocity, `c = clamp(settleK, 0, 2/dt)`) when
settling is enabled, the gated coefficients are both positive and
`rMin < r < settleR`, and zero otherwise; the cubic-smoothstep weight equals
1 at `r = rMin` always, and equals 0 at `r = settleR` provided
`settleR - rMin ≥ 1e-6` (the guard in the weight's denominator). -/
theorem C7_settling_dashpot (s : Sim) (i j : ℕ) :
    ((pairAccum s i j).fx i - (pairAccum (settleOff s) i j).fx i
        = (settleSpecTerm s i j).1 ∧
      (pairAccum s i j).fy i - (pairAccum (settleOff s) i j).fy i
        = (settleSpecTerm s i j).2) ∧
      (∀ rm sR : ℝ, settleWeight rm sR rm = 1) ∧
      (∀ rm sR : ℝ, 1 / 1000000 ≤ sR - rm → settleWeight rm sR sR = 0) := by
  refine ⟨?_, ?_, ?_⟩
  · by_cases hij : i < j
    · by_cases h2 : pr2 s i j = 0
      · have e1 : pairAccum s i j = s := pairAccum_noop s i j (Or.inr (Or.inl h2))
        have e2 : pairAccum (settleOff s) i j = settleOff s :=
          pairAccum_noop _ i j (Or.inr (Or.inl (by rw [pr2_settleOff]; exact h2)))
        rw [e1, e2, fx_settleOff, fy_settleOff]
        unfold settleSpecTerm
        rw [if_neg (by tauto)]
        norm_num
      · by_cases hR : pr s i j > s.spec.R
        · have e1 : pairAccum s i j = s := pairAccum_noop s i j (Or.inr (Or.inr hR))
          have e2 : pairAccum (settleOff s) i j = settleOff s :=
            pairAccum_noop _ i j
              (Or.inr (Or.inr (by rw [pr_settleOff, R_settleOff]; exact hR)))
          rw [e1, e2, fx_settleOff, fy_settleOff]
          unfold settleSpecTerm
          rw [if_neg (by push_neg; intro _ _ h; exact absurd hR (not_lt.mpr h))]
          norm_num
        · obtain ⟨d1, d2, _, _⟩ := pairAccum_delta s i j hij h2 hR
          rw [d1, d2]
          exact sDamp_eq_spec s i j hij h2 hR
    · have hle : j ≤ i := le_of_not_lt hij
      have e1 : pairAccum s i j = s := pairAccum_noop s i j (Or.inl hle)
      have e2 : pairAccum (settleOff s) i j = settleOff s :=
        pairAccum_noop _ i j (Or.inl hle)
      rw [e1, e2, fx_settleOff, fy_settleOff]
      unfold settleSpecTerm
      rw [if_neg (by tauto)]
      norm_num
  · intro rm sR
    unfold settleWeight smoothstep01 clamp
    rw [sub_self, zero_div]
    norm_num
  · intro rm sR hg
    unfold settleWeight smoothstep01 clamp
    rw [max_eq_right hg, div_self (by positivity)]
    norm_num

/-- Witness for C7's guarded weight fact at `rMin = 0`, `settleR = 1`. -/
theorem C7_witness :
    (1 / 1000000 : ℝ) ≤ 1 - 0 ∧ settleWeight 0 1 1 = 0 :=
  ⟨by norm_num, (C7_settling_dashpot trivSim 0 0).2.2 0 1 (by norm_num)⟩

/-- C7 — counterexample.  With `settleR - rMin = 1e-7 < 1e-6` the guard takes
over the weight's denominator and the cubic-smoothstep weight does NOT vanish
at `r = settleR`: it equals `243/250`. -/
theorem C7_counterexample :
    (1 / 10 : ℝ) < 1 / 10 + 1 / 10000000 ∧
      settleWeight (1 / 10) (1 / 10 + 1 / 10000000) (1 / 10 + 1 / 10000000) ≠ 0 := by
  constructor
  · norm_num
  · have ht : ((1 / 10 + 1 / 10000000 : ℝ) - 1 / 10) /
        max (1 / 1000000) ((1 / 10 + 1 / 10000000) - 1 / 10) = 1 / 10 := by
      rw [show ((1 / 10 + 1 / 10000000 : ℝ) - 1 / 10) = 1 / 10000000 by ring,
        max_eq_left (by norm_num)]
      norm_num
    have hs : smoothstep01 (1 / 10) = 7 / 250 := by
      unfold smoothstep01 clamp
      rw [min_eq_right (by norm_num : (1 : ℝ) / 10 ≤ 1),
        max_eq_right (by norm_num : (0 : ℝ) ≤ 1 / 10)]
      show (1 / 10 : ℝ) * (1 / 10) * (3 - 2 * (1 / 10)) = 7 / 250
      norm_num
    unfold settleWeight
    rw [ht, hs]
    norm_num

/-- C4, first half: on `(0, rMin)` the hard-core branch is negative for every
coefficient. -/
theorem accelMag_neg_of_lt_rMin (a r rMin : ℝ) (h1 : 0 < rMin) (h0 : 0 < r)
    (hr : r < rMin) : accelMag a r rMin < 0 := by
  unfold accelMag
  rw [if_neg (not_le.mpr h0), if_pos hr]
  have : r / rMin < 1 := (div_lt_one h1).mpr hr
  linarith

/-- C4 — amended.  For `0 < rMin < 1` the hard-core branch is always strictly
repulsive on `(0, rMin)`; the two branches agree (value 0) at the threshold
`r = rMin` provided the bell denominator is not taken over by the `1e-6`
guard, i.e. provided `1 - rMin ≥ 1e-6`. -/
theorem C4_accelMag_repulsive_and_continuous (a rMin : ℝ) (h1 : 0 < rMin)
    (h2 : rMin < 1) :
    (∀ r : ℝ, 0 < r → r < rMin → accelMag a r rMin < 0) ∧
      (1 / 1000000 ≤ 1 - rMin → accelMag a rMin rMin = 0) := by
  constructor
  · intro r h0 hr
    exact accelMag_neg_of_lt_rMin a r rMin h1 h0 hr
  · intro hguard
    unfold accelMag
    rw [if_neg (not_le.mpr h1), if_neg (lt_irrefl rMin)]
    have hd : max (1 / 1000000 : ℝ) (1 - rMin) = 1 - rMin := max_eq_right hguard
    have habs : |1 + rMin - 2 * rMin| = 1 - rMin := by
      rw [show (1 + rMin - 2 * rMin : ℝ) = 1 - rMin by ring]
      exact abs_of_nonneg (by linarith)
    rw [hd, habs]
    show a * (1 - (1 - rMin) / (1 - rMin)) = 0
    rw [div_self (by linarith), sub_self, mul_zero]

/-- Witness for C4's amended theorem at `a = 37`, `rMin = 1/2`. -/
theorem C4_witness :
    ((0 : ℝ) < 1 / 2 ∧ (1 / 2 : ℝ) < 1) ∧
      ((∀ r : ℝ, 0 < r → r < 1 / 2 → accelMag 37 r (1 / 2) < 0) ∧
        (1 / 1000000 ≤ 1 - (1 / 2 : ℝ) →
          accelMag 37 (1 / 2) (1 / 2) = 0)) :=
  ⟨⟨by norm_num, by norm_num⟩,
    C4_accelMag_repulsive_and_continuous 37 (1 / 2) (by norm_num) (by norm_num)⟩

/-- C4 — counterexample.  At `rMin = 1 - 1e-7` the `1e-6` guard takes over the
bell denominator and `accelMag(1, rMin, rMin) = 9/10 ≠ 0`: the two branches do
not agree at the threshold for every `rMin ∈ (0,1)`. -/
theorem C4_counterexample :
    (0 : ℝ) < 1 - 1 / 10000000 ∧ (1 - 1 / 10000000 : ℝ) < 1 ∧
      accelMag 1 (1 - 1 / 10000000) (1 - 1 / 10000000) ≠ 0 := by
  refine ⟨by norm_num, by norm_num, ?_⟩
  have h : accelMag 1 (1 - 1 / 10000000) (1 - 1 / 10000000) = 9 / 10 := by
    unfold accelMag
    rw [if_neg (by norm_num), if_neg (lt_irrefl _)]
    have hd : max (1 / 1000000 : ℝ) (1 - (1 - 1 / 10000000)) = 1 / 1000000 := by
      rw [max_eq_left (by norm_num)]
    have habs :
        |1 + (1 - 1 / 10000000 : ℝ) - 2 * (1 - 1 / 10000000)| = 1 / 10000000 := by
      rw [show (1 + (1 - 1 / 10000000 : ℝ) - 2 * (1 - 1 / 10000000)) = 1 / 10000000
        by ring]
      exact abs_of_nonneg (by norm_num)
    rw [hd, habs]
    show (1 : ℝ) * (1 - 1 / 10000000 / (1 / 1000000)) = 9 / 10
    norm_num
  rw [h]
  norm_num

/-- The bell branch is strictly positive for a positive coefficient and
`rMin < r < 1`. -/
theorem accelMag_pos_of_bell (a r rMin : ℝ) (ha : 0 < a) (h0 : 0 < rMin)
    (h1 : rMin < r) (h2 : r < 1) : 0 < accelMag a r rMin := by
  unfold accelMag
  rw [if_neg (not_le.mpr (lt_trans h0 h1)), if_neg (not_lt.mpr (le_of_lt h1))]
  show 0 < a * (1 - |1 + rMin - 2 * r| / max (1 / 1000000) (1 - rMin))
  have hdp : (0 : ℝ) < max (1 / 1000000) (1 - rMin) :=
    lt_of_lt_of_le (by norm_num) (le_max_left _ _)
  have habs : |1 + rMin - 2 * r| < max (1 / 1000000) (1 - rMin) := by
    refine lt_of_lt_of_le ?_ (le_max_right _ _)
    rw [abs_lt]
    constructor <;> linarith
  have hratio : |1 + rMin - 2 * r| / max (1 / 1000000) (1 - rMin) < 1 :=
    (div_lt_one hdp).mpr habs
  exact mul_pos ha (by linarith)

/-- A zero coefficient gives zero magnitude outside the hard core. -/
theorem accelMag_zero_coeff (r rMin : ℝ) (h : rMin ≤ r) : accelMag 0 r rMin = 0 := by
  unfold accelMag
  by_cases h0 : r ≤ 0
  · rw [if_pos h0]
  · rw [if_neg h0, if_neg (not_lt.mpr h)]
    show (0 : ℝ) * (1 - |1 + rMin - 2 * r| / max (1 / 1000000) (1 - rMin)) = 0
    exact zero_mul _

/-- C3.  Non-reciprocity: for a pair of types 0 and 1 with `A[0][1] = 1` and
`A[1][0] = 0` separated by `r` in the bell region (`rMin < r < 1`, within
cutoff), the accumulation gives particle `i` (type 0) a strictly positive
force towards particle `j`, while particle `j` (type 1) receives nothing
from the pair — the settling dashpot cannot fire since `A[1][0] = 0`. -/
theorem C3_nonreciprocal (s : Sim) (i j : ℕ) (r : ℝ) (hij : i < j)
    (hti : s.type i = 0) (htj : s.type j = 1)
    (hA01 : mget s.A 0 1 = 1) (hA10 : mget s.A 1 0 = 0)
    (hmo : s.spec.mutualOnly = false)
    (hx : s.x j - s.x i = r) (hy : s.y j = s.y i)
    (hrm : 0 < s.spec.rMin) (hr1 : s.spec.rMin < r) (hr2 : r < 1)
    (hrR : r ≤ s.spec.R) :
    0 < (pairAccum s i j).fx i - s.fx i ∧
      (pairAccum s i j).fy i = s.fy i ∧
      (pairAccum s i j).fx j = s.fx j ∧
      (pairAccum s i j).fy j = s.fy j := by
  have hr0 : 0 < r := lt_trans hrm hr1
  have hdx : pdx s i j = r := by
    unfold pdx
    rcases hb : s.spec.wrap with _ | _
    · simpa [hb] using hx
    · simp only [hb, if_true]
      unfold torusDelta
      rw [hx]
      rw [if_neg (by linarith), if_neg (by linarith)]
  have hdy : pdy s i j = 0 := by
    unfold pdy
    rcases hb : s.spec.wrap with _ | _
    · simp [hb, hy]
    · simp only [hb, if_true]
      unfold torusDelta
      rw [hy, sub_self]
      norm_num
  have hpr2 : pr2 s i j = r * r := by
    unfold pr2
    rw [hdx, hdy]
    ring
  have h2 : pr2 s i j ≠ 0 := by
    rw [hpr2]
    exact (mul_pos hr0 hr0).ne'
  have hpr : pr s i j = r := by
    unfold pr
    rw [hpr2]
    exact Real.sqrt_mul_self (le_of_lt hr0)
  have hR' : ¬ pr s i j > s.spec.R := by
    rw [hpr]
    exact not_lt.mpr hrR
  have hux : pux s i j = 1 := by
    unfold pux pinvr
    rw [hdx, hpr]
    field_simp
  have huy : puy s i j = 0 := by
    unfold puy pinvr
    rw [hdy]
    exact zero_mul _
  have hgate : ¬ pgate s i j := by
    unfold pgate
    rw [hmo]
    simp
  have haij : paij s i j = 1 := by
    unfold paij
    rw [if_neg hgate, hti, htj, hA01]
  have haji : paji s i j = 0 := by
    unfold paji
    rw [if_neg hgate, hti, htj, hA10]
  have hfij : 0 < pfij s i j := by
    unfold pfij
    rw [haij, hpr]
    exact accelMag_pos_of_bell 1 r s.spec.rMin (by norm_num) hrm hr1 hr2
  have hfji : pfji s i j = 0 := by
    unfold pfji
    rw [haji, hpr]
    exact accelMag_zero_coeff r s.spec.rMin (le_of_lt hr1)
  have hnosettle : ¬ (s.spec.settleEnabled = true ∧ psettle s i j) := by
    rintro ⟨-, -, hq, -⟩
    rw [haji] at hq
    exact lt_irrefl 0 hq
  have hsx : sDampX s i j = 0 := by rw [sDampX_eq, if_neg hnosettle]
  have hsy : sDampY s i j = 0 := by rw [sDampY_eq, if_neg hnosettle]
  refine ⟨?_, ?_, ?_, ?_⟩
  · rw [pairAccum_fx_i s i j hij h2 hR', hux, hsx]
    linarith
  · rw [pairAccum_fy_i s i j hij h2 hR', huy, hsy]
    ring
  · rw [pairAccum_fx_j s i j hij h2 hR', hfji, hsx]
    ring
  · rw [pairAccum_fy_j s i j hij h2 hR', hfji, hsy]
    ring

/-- Witness for C3 on the concrete state `simC3` (`r = 1/2`). -/
theorem C3_witness :
    0 < (pairAccum simC3 0 1).fx 0 - simC3.fx 0 ∧
      (pairAccum simC3 0 1).fy 0 = simC3.fy 0 ∧
      (pairAccum simC3 0 1).fx 1 = simC3.fx 1 ∧
      (pairAccum simC3 0 1).fy 1 = simC3.fy 1 :=
  C3_nonreciprocal simC3 0 1 (1 / 2) (by norm_num) rfl rfl rfl rfl rfl
    (by norm_num [simC3, specTriv, trivSim]) rfl (by norm_num [simC3, specTriv])
    (by norm_num [simC3, specTriv]) (by norm_num)
    (by norm_num [simC3, specTriv])

/-- C5 — amended.  When `mutualOnly` is set and the pair is not mutually
attractive, the pair contributes nothing at all — provided the separation is
at least `rMin`; below `rMin` the hard-core repulsion (independent of the
gated coefficients) still applies. -/
theorem C5_mutualOnly_gate (s : Sim) (i j : ℕ) (hij : i < j)
    (hmo : s.spec.mutualOnly = true)
    (hnm : ¬(mget s.A (s.type i) (s.type j) > 0 ∧
      mget s.A (s.type j) (s.type i) > 0))
    (hlo : s.spec.rMin ≤ pr s i j) (hhi : pr s i j ≤ s.spec.R) :
    pairAccum s i j = s := by
  by_cases h2 : pr2 s i j = 0
  · exact pairAccum_noop s i j (Or.inr (Or.inl h2))
  · have hgate : pgate s i j := ⟨hmo, hnm⟩
    have haij : paij s i j = 0 := by unfold paij; rw [if_pos hgate]
    have haji : paji s i j = 0 := by unfold paji; rw [if_pos hgate]
    have hfij : pfij s i j = 0 := by
      unfold pfij
      rw [haij]
      exact accelMag_zero_coeff _ _ hlo
    have hfji : pfji s i j = 0 := by
      unfold pfji
      rw [haji]
      exact accelMag_zero_coeff _ _ hlo
    have hnosettle : ¬ psettle s i j := by
      rintro ⟨hq, -⟩
      rw [haij] at hq
      exact lt_irrefl 0 hq
    unfold pairAccum
    rw [if_neg (not_le.mpr hij), if_neg h2, if_neg (not_lt.mpr hhi)]
    simp [hfij, hfji, hnosettle]

/-- Witness for C5's amended theorem on `simC5w` (`r = 1`). -/
theorem C5_witness :
    simC5w.spec.mutualOnly = true ∧
      ¬(mget simC5w.A (simC5w.type 0) (simC5w.type 1) > 0 ∧
        mget simC5w.A (simC5w.type 1) (simC5w.type 0) > 0) ∧
      simC5w.spec.rMin ≤ pr simC5w 0 1 ∧ pr simC5w 0 1 ≤ simC5w.spec.R ∧
      pairAccum simC5w 0 1 = simC5w := by
  have hpr : pr simC5w 0 1 = 1 := by
    have hdx : pdx simC5w 0 1 = 1 := by
      unfold pdx
      norm_num [simC5w, specTriv, trivSim]
    have hdy : pdy simC5w 0 1 = 0 := by
      unfold pdy
      norm_num [simC5w, specTriv, trivSim]
    unfold pr pr2
    rw [hdx, hdy]
    norm_num
  have hnm : ¬(mget simC5w.A (simC5w.type 0) (simC5w.type 1) > 0 ∧
      mget simC5w.A (simC5w.type 1) (simC5w.type 0) > 0) := by
    rintro ⟨hq, -⟩
    norm_num [simC5w, mget] at hq
  refine ⟨rfl, hnm, ?_, ?_, ?_⟩
  · rw [hpr]
    norm_num [simC5w, specTriv]
  · rw [hpr]
    norm_num [simC5w, specTriv]
  · refine C5_mutualOnly_gate simC5w 0 1 (by norm_num) rfl hnm ?_ ?_
    · rw [hpr]
      norm_num [simC5w, specTriv]
    · rw [hpr]
      norm_num [simC5w, specTriv]

/-- C5 — counterexample.  On `simC5` the pair is gated (`mutualOnly` set, not
mutually attractive) and within cutoff (`0 < r = 1/2 ≤ R`), yet particle 0
still receives a force: the hard-core repulsion ignores the gate below
`rMin = 3/4`. -/
theorem C5_counterexample :
    simC5.spec.mutualOnly = true ∧
      ¬(mget simC5.A (simC5.type 0) (simC5.type 1) > 0 ∧
        mget simC5.A (simC5.type 1) (simC5.type 0) > 0) ∧
      0 < pr simC5 0 1 ∧ pr simC5 0 1 ≤ simC5.spec.R ∧
      (pairAccum simC5 0 1).fx 0 ≠ simC5.fx 0 := by
  have hdx : pdx simC5 0 1 = 1 / 2 := by
    unfold pdx
    norm_num [simC5, specTriv, trivSim]
  have hdy : pdy simC5 0 1 = 0 := by
    unfold pdy
    norm_num [simC5, specTriv, trivSim]
  have hpr2 : pr2 simC5 0 1 = (1 / 2) * (1 / 2) := by
    unfold pr2
    rw [hdx, hdy]
    ring
  have hpr : pr simC5 0 1 = 1 / 2 := by
    unfold pr
    rw [hpr2]
    exact Real.sqrt_mul_self (by norm_num)
  have h2 : pr2 simC5 0 1 ≠ 0 := by
    rw [hpr2]
    norm_num
  have hR' : ¬ pr simC5 0 1 > simC5.spec.R := by
    rw [hpr]
    norm_num [simC5, specTriv]
  have hgate : pgate simC5 0 1 := by
    refine ⟨rfl, ?_⟩
    rintro ⟨hq, -⟩
    norm_num [simC5, mget] at hq
  have haij : paij simC5 0 1 = 0 := by unfold paij; rw [if_pos hgate]
  have hfij : pfij simC5 0 1 = -(1 / 3) := by
    unfold pfij
    rw [haij, hpr]
    unfold accelMag
    rw [if_neg (by norm_num [simC5, specTriv]), if_pos (by norm_num [simC5, specTriv])]
    norm_num [simC5, specTriv]
  have hux : pux simC5 0 1 = 1 := by
    unfold pux pinvr
    rw [hdx, hpr]
    norm_num
  have hnosettle : ¬ (simC5.spec.settleEnabled = true ∧ psettle simC5 0 1) := by
    rintro ⟨-, hq, -⟩
    rw [haij] at hq
    exact lt_irrefl 0 hq
  have hsx : sDampX simC5 0 1 = 0 := by rw [sDampX_eq, if_neg hnosettle]
  refine ⟨rfl, ?_, ?_, ?_, ?_⟩
  · rintro ⟨hq, -⟩
    norm_num [simC5, mget] at hq
  · rw [hpr]
    norm_num
  · rw [hpr]
    norm_num [simC5, specTriv]
  · rw [pairAccum_fx_i simC5 0 1 (by norm_num) h2 hR', hfij, hux, hsx]
    norm_num

/-! Frame lemmas for the grid and the step phases. -/

theorem insertParticle_x (g : ℕ) (t : Sim) (i : ℕ) :
    (insertParticle g t i).x = t.x ∧ (insertParticle g t i).y = t.y := ⟨rfl, rfl⟩

theorem rebuildGrid_frame (sim : Sim) :
    (rebuildGrid sim).x = sim.x ∧ (rebuildGrid sim).y = sim.y ∧
      (rebuildGrid sim).vx = sim.vx ∧ (rebuildGrid sim).vy = sim.vy ∧
      (rebuildGrid sim).type = sim.type ∧ (rebuildGrid sim).fx = sim.fx ∧
      (rebuildGrid sim).fy = sim.fy ∧ (rebuildGrid sim).spec = sim.spec ∧
      (rebuildGrid sim).len = sim.len ∧
      (rebuildGrid sim).gridDim = sim.gridDim ∧
      (rebuildGrid sim).rngState = sim.rngState ∧
      (rebuildGrid sim).frame = sim.frame ∧
      (rebuildGrid sim).lastMaxSpeed = sim.lastMaxSpeed ∧
      (rebuildGrid sim).A = sim.A := by
  unfold rebuildGrid
  refine foldl_preserve _
    (fun (t : Sim) => t.x = sim.x ∧ t.y = sim.y ∧ t.vx = sim.vx ∧ t.vy = sim.vy ∧
      t.type = sim.type ∧ t.fx = sim.fx ∧ t.fy = sim.fy ∧ t.spec = sim.spec ∧
      t.len = sim.len ∧ t.gridDim = sim.gridDim ∧ t.rngState = sim.rngState ∧
      t.frame = sim.frame ∧ t.lastMaxSpeed = sim.lastMaxSpeed ∧ t.A = sim.A)
    ?_ _ _
    ⟨rfl, rfl, rfl, rfl, rfl, rfl, rfl, rfl, rfl, rfl, rfl, rfl, rfl, rfl⟩
  intro t i ht
  exact ht

theorem rebuildGrid_next_high (sim : Sim) (i : ℕ)
    (hi : min sim.spec.N sim.len ≤ i) :
    (rebuildGrid sim).next i = sim.next i := by
  unfold rebuildGrid
  refine foldl_preserve_mem _ (fun (t : Sim) => t.next i = sim.next i) _ ?_ _ rfl
  intro t m hm ht
  unfold insertParticle
  show Function.update t.next m _ i = sim.next i
  rw [Function.update_noteq (by rw [List.mem_range] at hm; omega)]
  exact ht

theorem zeroForces_frame (s : Sim) (N : ℕ) :
    SameEnv s (zeroForces s N) :=
  ⟨rfl, rfl, rfl, rfl, rfl, rfl, rfl, rfl, rfl, rfl, rfl, rfl, rfl, rfl⟩

theorem zeroForces_fx_high (s : Sim) (N i : ℕ) (hi : N ≤ i) :
    (zeroForces s N).fx i = s.fx i ∧ (zeroForces s N).fy i = s.fy i := by
  unfold zeroForces
  constructor
  · show (if i < N then (0 : ℝ) else s.fx i) = s.fx i
    rw [if_neg (by omega)]
  · show (if i < N then (0 : ℝ) else s.fy i) = s.fy i
    rw [if_neg (by omega)]

theorem pairAccum_sameEnv (s u : Sim) (i j : ℕ) (h : SameEnv s u) :
    SameEnv s (pairAccum u i j) := by
  obtain ⟨e1, e2, e3, e4, e5, e6, e7, e8, e9, e10, e11, e12, e13, e14, -⟩ :=
    pairAccum_frame u i j
  obtain ⟨h1, h2, h3, h4, h5, h6, h7, h8, h9, h10, h11, h12, h13, h14⟩ := h
  exact ⟨e1.trans h1, e2.trans h2, e3.trans h3, e4.trans h4, e5.trans h5,
    e6.trans h6, e7.trans h7, e8.trans h8, e9.trans h9, e10.trans h10,
    e11.trans h11, e12.trans h12, e13.trans h13, e14.trans h14⟩

theorem accumForces_sameEnv (s : Sim) (N : ℕ) : SameEnv s (accumForces s N) := by
  unfold accumForces
  refine foldl_preserve _ (SameEnv s) ?_ _ _
    ⟨rfl, rfl, rfl, rfl, rfl, rfl, rfl, rfl, rfl, rfl, rfl, rfl, rfl, rfl⟩
  intro t i ht
  exact foldl_preserve _ (SameEnv s) (fun u j hu => pairAccum_sameEnv s u i j hu)
    _ t ht

theorem integrateOne_fst_frame (sp : SpecC) (df vm2 : ℝ) (sm : Sim × ℝ) (i : ℕ) :
    (integrateOne sp df vm2 sm i).1.fx = sm.1.fx ∧
      (integrateOne sp df vm2 sm i).1.fy = sm.1.fy ∧
      (integrateOne sp df vm2 sm i).1.type = sm.1.type ∧
      (integrateOne sp df vm2 sm i).1.spec = sm.1.spec ∧
      (integrateOne sp df vm2 sm i).1.len = sm.1.len ∧
      (integrateOne sp df vm2 sm i).1.gridDim = sm.1.gridDim ∧
      (integrateOne sp df vm2 sm i).1.cellHead = sm.1.cellHead ∧
      (integrateOne sp df vm2 sm i).1.next = sm.1.next ∧
      (integrateOne sp df vm2 sm i).1.rngState = sm.1.rngState ∧
      (integrateOne sp df vm2 sm i).1.frame = sm.1.frame ∧
      (integrateOne sp df vm2 sm i).1.lastMaxSpeed = sm.1.lastMaxSpeed ∧
      (integrateOne sp df vm2 sm i).1.A = sm.1.A := by
  unfold integrateOne
  split_ifs <;>
    exact ⟨rfl, rfl, rfl, rfl, rfl, rfl, rfl, rfl, rfl, rfl, rfl, rfl⟩

theorem integrateOne_other (sp : SpecC) (df vm2 : ℝ) (sm : Sim × ℝ) (m k : ℕ)
    (hk : k ≠ m) :
    (integrateOne sp df vm2 sm m).1.x k = sm.1.x k ∧
      (integrateOne sp df vm2 sm m).1.y k = sm.1.y k ∧
      (integrateOne sp df vm2 sm m).1.vx k = sm.1.vx k ∧
      (integrateOne sp df vm2 sm m).1.vy k = sm.1.vy k := by
  unfold integrateOne
  split_ifs <;>
    exact ⟨Function.update_noteq hk _ _, Function.update_noteq hk _ _,
      Function.update_noteq hk _ _, Function.update_noteq hk _ _⟩

theorem integratePhase_frame (sp : SpecC) (N : ℕ) (s : Sim) :
    (integratePhase sp N s).1.fx = s.fx ∧ (integratePhase sp N s).1.fy = s.fy ∧
      (integratePhase sp N s).1.type = s.type ∧
      (integratePhase sp N s).1.spec = s.spec ∧
      (integratePhase sp N s).1.len = s.len ∧
      (integratePhase sp N s).1.gridDim = s.gridDim ∧
      (integratePhase sp N s).1.cellHead = s.cellHead ∧
      (integratePhase sp N s).1.next = s.next ∧
      (integratePhase sp N s).1.rngState = s.rngState ∧
      (integratePhase sp N s).1.frame = s.frame ∧
      (integratePhase sp N s).1.A = s.A := by
  unfold integratePhase
  refine foldl_preserve _
    (fun (sm : Sim × ℝ) => sm.1.fx = s.fx ∧ sm.1.fy = s.fy ∧ sm.1.type = s.type ∧
      sm.1.spec = s.spec ∧ sm.1.len = s.len ∧ sm.1.gridDim = s.gridDim ∧
      sm.1.cellHead = s.cellHead ∧ sm.1.next = s.next ∧
      sm.1.rngState = s.rngState ∧ sm.1.frame = s.frame ∧ sm.1.A = s.A)
    ?_ _ _ ⟨rfl, rfl, rfl, rfl, rfl, rfl, rfl, rfl, rfl, rfl, rfl⟩
  intro sm i hsm
  obtain ⟨e1, e2, e3, e4, e5, e6, e7, e8, e9, e10, -, e12⟩ :=
    integrateOne_fst_frame sp _ _ sm i
  obtain ⟨h1, h2, h3, h4, h5, h6, h7, h8, h9, h10, h11⟩ := hsm
  exact ⟨e1.trans h1, e2.trans h2, e3.trans h3, e4.trans h4, e5.trans h5,
    e6.trans h6, e7.trans h7, e8.trans h8, e9.trans h9, e10.trans h10,
    e12.trans h11⟩

theorem integratePhase_high (sp : SpecC) (N : ℕ) (s : Sim) (i : ℕ) (hi : N ≤ i) :
    (integratePhase sp N s).1.x i = s.x i ∧ (integratePhase sp N s).1.y i = s.y i ∧
      (integratePhase sp N s).1.vx i = s.vx i ∧
      (integratePhase sp N s).1.vy i = s.vy i := by
  unfold integratePhase
  refine foldl_preserve_mem _
    (fun (sm : Sim × ℝ) => sm.1.x i = s.x i ∧ sm.1.y i = s.y i ∧ sm.1.vx i = s.vx i ∧
      sm.1.vy i = s.vy i) _ ?_ _ ⟨rfl, rfl, rfl, rfl⟩
  intro sm m hm hsm
  have hk : i ≠ m := by rw [List.mem_range] at hm; omega
  obtain ⟨e1, e2, e3, e4⟩ := integrateOne_other sp _ _ sm m i hk
  exact ⟨e1.trans hsm.1, e2.trans hsm.2.1, e3.trans hsm.2.2.1,
    e4.trans hsm.2.2.2⟩

/-! The intrusive cell lists after a grid rebuild. -/

theorem chainList_update (nxt : ℕ → ℤ) (n : ℕ) (v : ℤ) :
    ∀ (F : ℕ) (h : ℤ), n ∉ chainList nxt F h →
      chainList (Function.update nxt n v) F h = chainList nxt F h := by
  intro F
  induction F with
  | zero => intro h _; rfl
  | succ F ih =>
    intro h hmem
    unfold chainList
    by_cases hh : h = -1
    · rw [if_pos hh, if_pos hh]
    · rw [if_neg hh, if_neg hh]
      have hne : h.toNat ≠ n := by
        intro e
        apply hmem
        unfold chainList
        rw [if_neg hh, e]
        exact List.mem_cons_self _ _
      rw [Function.update_noteq hne]
      congr 1
      apply ih
      intro hmem2
      apply hmem
      unfold chainList
      rw [if_neg hh]
      exact List.mem_cons_of_mem _ hmem2

theorem buildGrid_chain (sim : Sim) :
    ∀ (n : ℕ) (c : ℕ) (F : ℕ), n ≤ F →
      chainList
        ((List.range n).foldl (insertParticle sim.gridDim)
          { sim with cellHead := fun _ => -1 }).next F
        (((List.range n).foldl (insertParticle sim.gridDim)
          { sim with cellHead := fun _ => -1 }).cellHead c)
      = ((List.range n).filter (fun p => cellOf sim p = c)).reverse := by
  intro n
  induction n with
  | zero =>
    intro c F _
    show chainList _ F (-1) = []
    cases F with
    | zero => rfl
    | succ F => unfold chainList; rw [if_pos rfl]
  | succ n ih =>
    intro c F hF
    obtain ⟨F', rfl⟩ : ∃ F', F = F' + 1 := ⟨F - 1, by omega⟩
    rw [List.range_succ, List.foldl_append]
    have hxy : ((List.range n).foldl (insertParticle sim.gridDim)
        { sim with cellHead := fun _ => -1 }).x = sim.x ∧
        ((List.range n).foldl (insertParticle sim.gridDim)
          { sim with cellHead := fun _ => -1 }).y = sim.y := by
      refine foldl_preserve _ (fun (t : Sim) => t.x = sim.x ∧ t.y = sim.y) ?_ _ _
        ⟨rfl, rfl⟩
      intro t i ht
      exact ht
    set B := (List.range n).foldl (insertParticle sim.gridDim)
      { sim with cellHead := fun _ => -1 } with hB
    have hmemB : ∀ (c' : ℕ) (F'' : ℕ), n ≤ F'' →
        ∀ q ∈ chainList B.next F'' (B.cellHead c'), q < n := by
      intro c' F'' hF'' q hq
      rw [ih c' F'' hF''] at hq
      rw [List.mem_reverse, List.mem_filter, List.mem_range] at hq
      exact hq.1
    simp only [List.foldl_cons, List.foldl_nil]
    have hcell : cellIndexOf (B.x n) (B.y n) sim.gridDim = cellOf sim n := by
      rw [hxy.1, hxy.2]
      rfl
    have hnext : (insertParticle sim.gridDim B n).next
        = Function.update B.next n (B.cellHead (cellOf sim n)) := by
      show Function.update B.next n
          (B.cellHead (cellIndexOf (B.x n) (B.y n) sim.gridDim)) = _
      rw [hcell]
    have hhead : (insertParticle sim.gridDim B n).cellHead
        = Function.update B.cellHead (cellOf sim n) (n : ℤ) := by
      show Function.update B.cellHead
          (cellIndexOf (B.x n) (B.y n) sim.gridDim) (n : ℤ) = _
      rw [hcell]
    rw [hnext, hhead, List.filter_append]
    by_cases hc : cellOf sim n = c
    · rw [hc, Function.update_same]
      unfold chainList
      rw [if_neg (by omega : ¬ ((n : ℤ) = -1))]
      have hF'n : n ≤ F' := by omega
      have htn : ((n : ℤ)).toNat = n := by omega
      rw [htn, Function.update_same]
      rw [chainList_update B.next n (B.cellHead c) F' (B.cellHead c)
        (fun hmem => lt_irrefl n (hmemB c F' hF'n n hmem))]
      rw [ih c F' hF'n]
      have hfn : List.filter (fun p => decide (cellOf sim p = c)) [n] = [n] := by
        simp [hc]
      rw [hfn, List.reverse_append]
      rfl
    · have hcne : c ≠ cellOf sim n := fun e => hc e.symm
      rw [Function.update_noteq hcne]
      rw [chainList_update B.next n (B.cellHead (cellOf sim n)) (F' + 1)
        (B.cellHead c)
        (fun hmem => lt_irrefl n (hmemB c (F' + 1) (by omega) n hmem))]
      rw [ih c (F' + 1) (by omega)]
      have hfn : List.filter (fun p => decide (cellOf sim p = c)) [n] = [] := by
        simp [hc]
      rw [hfn, List.append_nil]

/-- The cell lists of the rebuilt grid: cell `c` holds exactly the particles
of the safe prefix whose position maps to `c`, most recently inserted
first. -/
theorem rebuildGrid_chain (sim : Sim) (c : ℕ) (F : ℕ)
    (hF : min sim.spec.N sim.len ≤ F) :
    chainList (rebuildGrid sim).next F ((rebuildGrid sim).cellHead c)
      = ((List.range (min sim.spec.N sim.len)).filter
          (fun p => cellOf sim p = c)).reverse :=
  buildGrid_chain sim _ c F hF

theorem rebuildGrid_chain_mem (sim : Sim) (c : ℕ) (F : ℕ)
    (hF : min sim.spec.N sim.len ≤ F) (q : ℕ)
    (hq : q ∈ chainList (rebuildGrid sim).next F ((rebuildGrid sim).cellHead c)) :
    q < min sim.spec.N sim.len ∧ cellOf sim q = c := by
  rw [rebuildGrid_chain sim c F hF, List.mem_reverse, List.mem_filter,
    List.mem_range] at hq
  exact ⟨hq.1, by simpa using hq.2⟩

theorem neighborList_congr (s t : Sim) (i : ℕ) (hx : t.x = s.x) (hy : t.y = s.y)
    (hspec : t.spec = s.spec) (hlen : t.len = s.len) (hg : t.gridDim = s.gridDim)
    (hch : t.cellHead = s.cellHead) (hnx : t.next = s.next) :
    neighborList t i = neighborList s i := by
  unfold neighborList
  rw [hx, hy, hspec, hlen, hg, hch, hnx]

/-- Every index yielded by `forEachNeighbor` on the rebuilt grid lies in the
safe prefix and differs from the centre particle. -/
theorem neighborList_rebuild_mem (sim t : Sim) (i : ℕ)
    (hx : t.x = sim.x) (hy : t.y = sim.y) (hspec : t.spec = sim.spec)
    (hlen : t.len = sim.len) (hg : t.gridDim = sim.gridDim)
    (hch : t.cellHead = (rebuildGrid sim).cellHead)
    (hnx : t.next = (rebuildGrid sim).next) :
    ∀ q ∈ neighborList t i, q < min sim.spec.N sim.len ∧ q ≠ i := by
  intro q hq
  unfold neighborList at hq
  rw [List.mem_flatMap] at hq
  obtain ⟨dyi, -, hq⟩ := hq
  rw [List.mem_flatMap] at hq
  obtain ⟨dxi, -, hq⟩ := hq
  have hfuel : min t.spec.N t.len = min sim.spec.N sim.len := by
    rw [hspec, hlen]
  dsimp only at hq
  split_ifs at hq
  · rw [List.mem_filter] at hq
    rw [hnx, hch, hfuel] at hq
    have := rebuildGrid_chain_mem sim _ _ le_rfl q hq.1
    exact ⟨this.1, by simpa using hq.2⟩
  · exact absurd hq (List.not_mem_nil q)
  · rw [List.mem_filter] at hq
    rw [hnx, hch, hfuel] at hq
    have := rebuildGrid_chain_mem sim _ _ le_rfl q hq.1
    exact ⟨this.1, by simpa using hq.2⟩

/-- C9.  `step` and `rebuildGrid` only touch the safe prefix
`min(spec.N, buffer length)`: every per-particle buffer entry at an index at
or above it — positions, velocities, force accumulators, types and grid
links — is left exactly as it was, so no out-of-range entry is ever written
and only the prefix of the force accumulators is zeroed. -/
theorem C9_safe_prefix (s : Sim) :
    (∀ i, min s.spec.N s.len ≤ i →
      (step s).x i = s.x i ∧ (step s).y i = s.y i ∧
        (step s).vx i = s.vx i ∧ (step s).vy i = s.vy i ∧
        (step s).fx i = s.fx i ∧ (step s).fy i = s.fy i ∧
        (step s).type i = s.type i ∧ (step s).next i = s.next i) ∧
      (∀ i, min s.spec.N s.len ≤ i → (rebuildGrid s).next i = s.next i) := by
  have hreb := rebuildGrid_frame s
  refine ⟨?_, fun i hi => rebuildGrid_next_high s i hi⟩
  intro i hi
  set N := min s.spec.N s.len with hN
  set t0 := zeroForces (rebuildGrid s) N with ht0
  set t1 := accumForces t0 N with ht1
  have henv0 : SameEnv (rebuildGrid s) t0 := zeroForces_frame _ N
  have henv1 : SameEnv t0 t1 := accumForces_sameEnv t0 N
  -- forces at high indices survive the accumulation pass
  have hacc : t1.fx i = t0.fx i ∧ t1.fy i = t0.fy i ∧ SameEnv t0 t1 := by
    rw [ht1]
    unfold accumForces
    refine foldl_preserve_mem _
      (fun (u : Sim) => u.fx i = t0.fx i ∧ u.fy i = t0.fy i ∧ SameEnv t0 u) _
      ?_ _ ⟨rfl, rfl, rfl, rfl, rfl, rfl, rfl, rfl, rfl, rfl, rfl, rfl, rfl,
        rfl, rfl, rfl⟩
    intro u m hm hu
    have hm' : m < N := List.mem_range.mp hm
    refine foldl_preserve_mem _
      (fun (v : Sim) => v.fx i = t0.fx i ∧ v.fy i = t0.fy i ∧ SameEnv t0 v) _
      ?_ _ hu
    intro v j hj hv
    obtain ⟨hvx, hvy, hvenv⟩ := hv
    have hjmem : j < min s.spec.N s.len ∧ j ≠ m := by
      obtain ⟨c1, c2, c3, c4, c5, c6, c7, c8, c9, c10, c11, c12, c13, c14⟩ :=
        hu.2.2
      obtain ⟨z1, z2, z3, z4, z5, z6, z7, z8, z9, z10, z11, z12, z13, z14⟩ :=
        henv0
    -- u agrees with rebuildGrid s via t0
      refine neighborList_rebuild_mem s u m ?_ ?_ ?_ ?_ ?_ ?_ ?_ j hj
      · rw [c1, z1, hreb.1]
      · rw [c2, z2, hreb.2.1]
      · rw [c6, z6, hreb.2.2.2.2.2.2.2.1]
      · rw [c7, z7, hreb.2.2.2.2.2.2.2.2.1]
      · rw [c8, z8, hreb.2.2.2.2.2.2.2.2.2.1]
      · rw [c9, z9]
      · rw [c10, z10]
    have hji : i ≠ j := by omega
    have himk : i ≠ m := by omega
    exact ⟨(pairAccum_fx_other v m j i himk hji).trans hvx,
      (pairAccum_fy_other v m j i himk hji).trans hvy,
      pairAccum_sameEnv t0 v m j hvenv⟩
  -- now push through the integration phase and the final record update
  have hint := integratePhase_frame s.spec N t1
  have hhigh := integratePhase_high s.spec N t1 i hi
  have hz := zeroForces_fx_high (rebuildGrid s) N i hi
  have e1 : (step s).x i = s.x i := by
    show (integratePhase s.spec N t1).1.x i = s.x i
    rw [hhigh.1, henv1.1, henv0.1, hreb.1]
  have e2 : (step s).y i = s.y i := by
    show (integratePhase s.spec N t1).1.y i = s.y i
    rw [hhigh.2.1, henv1.2.1, henv0.2.1, hreb.2.1]
  have e3 : (step s).vx i = s.vx i := by
    show (integratePhase s.spec N t1).1.vx i = s.vx i
    rw [hhigh.2.2.1, henv1.2.2.1, henv0.2.2.1, hreb.2.2.1]
  have e4 : (step s).vy i = s.vy i := by
    show (integratePhase s.spec N t1).1.vy i = s.vy i
    rw [hhigh.2.2.2, henv1.2.2.2.1, henv0.2.2.2.1, hreb.2.2.2.1]
  have e5 : (step s).fx i = s.fx i := by
    show (integratePhase s.spec N t1).1.fx i = s.fx i
    rw [hint.1, hacc.1, hz.1, hreb.2.2.2.2.2.1]
  have e6 : (step s).fy i = s.fy i := by
    show (integratePhase s.spec N t1).1.fy i = s.fy i
    rw [hint.2.1, hacc.2.1, hz.2, hreb.2.2.2.2.2.2.1]
  have e7 : (step s).type i = s.type i := by
    show (integratePhase s.spec N t1).1.type i = s.type i
    rw [hint.2.2.1, henv1.2.2.2.2.1, henv0.2.2.2.2.1, hreb.2.2.2.2.1]
  have e8 : (step s).next i = s.next i := by
    show (integratePhase s.spec N t1).1.next i = s.next i
    rw [hint.2.2.2.2.2.2.2.1, henv1.2.2.2.2.2.2.2.2.2.1,
      henv0.2.2.2.2.2.2.2.2.2.1]
    exact rebuildGrid_next_high s i hi
  exact ⟨e1, e2, e3, e4, e5, e6, e7, e8⟩

/-! The integrator keeps the world bounds when one wrap/reflection is
enough, i.e. when `dt * vMax ≤ WORLD_SIZE`. -/

theorem clamped_abs_le (v s2 vMax : ℝ) (hv : 0 ≤ vMax) (hvs : v * v ≤ s2) :
    |if s2 > vMax * vMax then v * (vMax / Real.sqrt s2) else v| ≤ vMax := by
  by_cases h : s2 > vMax * vMax
  · rw [if_pos h]
    have hs2 : 0 < s2 := lt_of_le_of_lt (mul_self_nonneg vMax) h
    have hsq : 0 < Real.sqrt s2 := Real.sqrt_pos.mpr hs2
    have hvle : |v| ≤ Real.sqrt s2 := by
      rw [show |v| = Real.sqrt (v * v) from (Real.sqrt_mul_self_eq_abs v).symm]
      exact Real.sqrt_le_sqrt hvs
    rw [abs_mul, abs_of_nonneg (div_nonneg hv (Real.sqrt_nonneg s2))]
    calc |v| * (vMax / Real.sqrt s2)
        ≤ Real.sqrt s2 * (vMax / Real.sqrt s2) :=
          mul_le_mul_of_nonneg_right hvle (div_nonneg hv (Real.sqrt_nonneg s2))
      _ = vMax := by field_simp
  · rw [if_neg h]
    rw [not_lt] at h
    rw [abs_le]
    constructor <;> nlinarith

theorem wrapCoord_mem (x : ℝ) (h1 : -3 ≤ x) (h2 : x ≤ 3) :
    -1 ≤ wrapCoord x ∧ wrapCoord x ≤ 1 := by
  unfold wrapCoord WORLD_SIZE
  split_ifs <;> constructor <;> linarith

theorem reflPos_mem (x0 : ℝ) (h1 : -3 ≤ x0) (h2 : x0 ≤ 3) :
    -1 ≤ reflPos x0 ∧ reflPos x0 ≤ 1 := by
  unfold reflPos reflLo
  split_ifs <;> constructor <;> linarith

theorem integrateOne_x_m (sp : SpecC) (df vm2 : ℝ) (sm : Sim × ℝ) (m : ℕ) :
    (integrateOne sp df vm2 sm m).1.x m
        = (if sp.wrap
            then wrapCoord (sm.1.x m + sp.dt * newVx sp df vm2 sm.1 m)
            else reflPos (sm.1.x m + sp.dt * newVx sp df vm2 sm.1 m)) ∧
      (integrateOne sp df vm2 sm m).1.y m
        = (if sp.wrap
            then wrapCoord (sm.1.y m + sp.dt * newVy sp df vm2 sm.1 m)
            else reflPos (sm.1.y m + sp.dt * newVy sp df vm2 sm.1 m)) := by
  unfold integrateOne
  split_ifs with h <;>
    exact ⟨Function.update_same _ _ _, Function.update_same _ _ _⟩

theorem newV_abs_le (sp : SpecC) (df : ℝ) (s : Sim) (m : ℕ) (hv : 0 ≤ sp.vMax) :
    |newVx sp df (sp.vMax * sp.vMax) s m| ≤ sp.vMax ∧
      |newVy sp df (sp.vMax * sp.vMax) s m| ≤ sp.vMax := by
  constructor
  · unfold newVx
    exact clamped_abs_le _ _ _ hv (le_add_of_nonneg_right (mul_self_nonneg _))
  · unfold newVy
    exact clamped_abs_le _ _ _ hv (le_add_of_nonneg_left (mul_self_nonneg _))

theorem integrateOne_mem (sp : SpecC) (df : ℝ) (sm : Sim × ℝ) (m : ℕ)
    (hdt : 0 ≤ sp.dt) (hv : 0 ≤ sp.vMax) (hprod : sp.dt * sp.vMax ≤ 2)
    (hx : ∀ k, -1 ≤ sm.1.x k ∧ sm.1.x k ≤ 1)
    (hy : ∀ k, -1 ≤ sm.1.y k ∧ sm.1.y k ≤ 1) :
    (∀ k, -1 ≤ (integrateOne sp df (sp.vMax * sp.vMax) sm m).1.x k ∧
        (integrateOne sp df (sp.vMax * sp.vMax) sm m).1.x k ≤ 1) ∧
      (∀ k, -1 ≤ (integrateOne sp df (sp.vMax * sp.vMax) sm m).1.y k ∧
        (integrateOne sp df (sp.vMax * sp.vMax) sm m).1.y k ≤ 1) := by
  obtain ⟨hvx, hvy⟩ := newV_abs_le sp df sm.1 m hv
  have hdx : |sp.dt * newVx sp df (sp.vMax * sp.vMax) sm.1 m| ≤ 2 := by
    rw [abs_mul, abs_of_nonneg hdt]
    calc sp.dt * |newVx sp df (sp.vMax * sp.vMax) sm.1 m|
        ≤ sp.dt * sp.vMax := mul_le_mul_of_nonneg_left hvx hdt
      _ ≤ 2 := hprod
  have hdy : |sp.dt * newVy sp df (sp.vMax * sp.vMax) sm.1 m| ≤ 2 := by
    rw [abs_mul, abs_of_nonneg hdt]
    calc sp.dt * |newVy sp df (sp.vMax * sp.vMax) sm.1 m|
        ≤ sp.dt * sp.vMax := mul_le_mul_of_nonneg_left hvy hdt
      _ ≤ 2 := hprod
  obtain ⟨hdx1, hdx2⟩ := abs_le.mp hdx
  obtain ⟨hdy1, hdy2⟩ := abs_le.mp hdy
  obtain ⟨hxm1, hxm2⟩ := hx m
  obtain ⟨hym1, hym2⟩ := hy m
  obtain ⟨exm, eym⟩ := integrateOne_x_m sp df (sp.vMax * sp.vMax) sm m
  constructor <;> intro k
  · by_cases hk : k = m
    · subst hk
      rw [exm]
      split_ifs
      · exact wrapCoord_mem _ (by linarith) (by linarith)
      · exact reflPos_mem _ (by linarith) (by linarith)
    · rw [(integrateOne_other sp df (sp.vMax * sp.vMax) sm m k hk).1]
      exact hx k
  · by_cases hk : k = m
    · subst hk
      rw [eym]
      split_ifs
      · exact wrapCoord_mem _ (by linarith) (by linarith)
      · exact reflPos_mem _ (by linarith) (by linarith)
    · rw [(integrateOne_other sp df (sp.vMax * sp.vMax) sm m k hk).2.1]
      exact hy k

/-- C1 — amended.  For every configuration with `dt > 0`, `vMax ≥ 0` AND
`dt * vMax ≤ 2` (one world size), in both wrap and reflect modes, a step
from a state whose positions lie in `[-1,1]` keeps every coordinate in
`[-1,1]`: the speed clamp bounds the per-step travel by `dt * vMax`, and one
wrap shift / one mirrored reflection then restores the coordinate. -/
theorem C1_step_keeps_bounds (s : Sim) (hdt : 0 < s.spec.dt)
    (hv : 0 ≤ s.spec.vMax) (hprod : s.spec.dt * s.spec.vMax ≤ 2)
    (hx : ∀ k, -1 ≤ s.x k ∧ s.x k ≤ 1) (hy : ∀ k, -1 ≤ s.y k ∧ s.y k ≤ 1) :
    ∀ k, (-1 ≤ (step s).x k ∧ (step s).x k ≤ 1) ∧
      (-1 ≤ (step s).y k ∧ (step s).y k ≤ 1) := by
  intro k
  set N := min s.spec.N s.len with hN
  set t1 := accumForces (zeroForces (rebuildGrid s) N) N with ht1
  have hreb := rebuildGrid_frame s
  have henv0 : SameEnv (rebuildGrid s) (zeroForces (rebuildGrid s) N) :=
    zeroForces_frame _ N
  have henv1 : SameEnv (zeroForces (rebuildGrid s) N) t1 :=
    accumForces_sameEnv _ N
  have hx1 : ∀ m, -1 ≤ t1.x m ∧ t1.x m ≤ 1 := by
    intro m
    rw [henv1.1, henv0.1, hreb.1]
    exact hx m
  have hy1 : ∀ m, -1 ≤ t1.y m ∧ t1.y m ≤ 1 := by
    intro m
    rw [henv1.2.1, henv0.2.1, hreb.2.1]
    exact hy m
  have key := foldl_preserve
    (integrateOne s.spec (max 0 (1 - s.spec.drag * s.spec.dt))
      (s.spec.vMax * s.spec.vMax))
    (fun (sm : Sim × ℝ) => (∀ m, -1 ≤ sm.1.x m ∧ sm.1.x m ≤ 1) ∧
      (∀ m, -1 ≤ sm.1.y m ∧ sm.1.y m ≤ 1))
    (fun sm m hsm =>
      integrateOne_mem s.spec _ sm m (le_of_lt hdt) hv hprod hsm.1 hsm.2)
    (List.range N) (t1, 0) ⟨hx1, hy1⟩
  exact ⟨key.1 k, key.2 k⟩

/-- Witness for C1's amended theorem on the trivial state. -/
theorem C1_witness :
    ((0 : ℝ) < trivSim.spec.dt ∧ (0 : ℝ) ≤ trivSim.spec.vMax ∧
      trivSim.spec.dt * trivSim.spec.vMax ≤ 2) ∧
      ∀ k, (-1 ≤ (step trivSim).x k ∧ (step trivSim).x k ≤ 1) ∧
        (-1 ≤ (step trivSim).y k ∧ (step trivSim).y k ≤ 1) :=
  ⟨⟨by norm_num [trivSim, specTriv], by norm_num [trivSim, specTriv],
      by norm_num [trivSim, specTriv]⟩,
    C1_step_keeps_bounds trivSim (by norm_num [trivSim, specTriv])
      (by norm_num [trivSim, specTriv]) (by norm_num [trivSim, specTriv])
      (fun k => by norm_num [trivSim]) (fun k => by norm_num [trivSim])⟩

/-! Concrete evaluation helpers for the single-cell grids of the
counterexamples. -/

theorem flatMap_nil_of {α β : Type} (l : List α) (f : α → List β)
    (h : ∀ a ∈ l, f a = []) : l.flatMap f = [] := by
  induction l with
  | nil => rfl
  | cons a t ih =>
    rw [List.flatMap_cons, h a (List.mem_cons_self a t),
      ih fun b hb => h b (List.mem_cons_of_mem a hb)]
    rfl

theorem count_flatMap_const {α : Type} (l : List α) (c : List ℕ)
    (f : α → List ℕ) (h : ∀ a ∈ l, f a = c) (q : ℕ) :
    (l.flatMap f).count q = l.length * c.count q := by
  induction l with
  | nil => simp
  | cons a t ih =>
    rw [List.flatMap_cons, List.count_append, h a (List.mem_cons_self a t),
      ih fun b hb => h b (List.mem_cons_of_mem a hb), List.length_cons]
    ring

theorem cellCoord_one (x : ℝ) : cellCoord x 1 = 0 := by
  unfold cellCoord
  omega

theorem cellIndexOf_one (x y : ℝ) : cellIndexOf x y 1 = 0 := by
  unfold cellIndexOf
  rw [cellCoord_one, cellCoord_one]
  rfl

/-- C1 — counterexample.  `simC1` has `dt = 10`, `vMax = 1` (so `dt > 0`,
`vMax ≥ 0` as the claim requires) and its single particle starts inside the
world at `x = 0.9` with unit velocity, yet after one wrap-mode step the
particle sits at `x = 8.9`, far outside `[-1,1]`: one wrap shift cannot
restore a coordinate that overshoots by more than one world size. -/
theorem C1_counterexample :
    (0 < simC1.spec.dt ∧ 0 ≤ simC1.spec.vMax ∧
      (∀ k, -1 ≤ simC1.x k ∧ simC1.x k ≤ 1) ∧
      (∀ k, -1 ≤ simC1.y k ∧ simC1.y k ≤ 1)) ∧
      (step simC1).x 0 = 89 / 10 ∧ ¬ (step simC1).x 0 ≤ 1 := by
  have hside : (0 < simC1.spec.dt ∧ 0 ≤ simC1.spec.vMax ∧
      (∀ k, -1 ≤ simC1.x k ∧ simC1.x k ≤ 1) ∧
      (∀ k, -1 ≤ simC1.y k ∧ simC1.y k ≤ 1)) := by
    refine ⟨by norm_num [simC1, specTriv], by norm_num [simC1, specTriv],
      fun k => ?_, fun k => ?_⟩
    · show -1 ≤ (9 : ℝ) / 10 ∧ (9 : ℝ) / 10 ≤ 1
      norm_num
    · show -1 ≤ (0 : ℝ) ∧ (0 : ℝ) ≤ 1
      norm_num
  -- the grid and accumulation phases
  set N := min simC1.spec.N simC1.len with hN
  have hN1 : N = 1 := rfl
  set t0 := zeroForces (rebuildGrid simC1) N with ht0
  have hnil : neighborList t0 0 = [] := by
    unfold neighborList
    apply flatMap_nil_of
    intro dyi _
    apply flatMap_nil_of
    intro dxi _
    dsimp only
    have hg : t0.gridDim = 1 := rfl
    have hchain : ∀ c : ℕ,
        chainList t0.next (min t0.spec.N t0.len) (t0.cellHead c)
          = ((List.range N).filter
              (fun p => cellOf simC1 p = c)).reverse := by
      intro c
      show chainList (rebuildGrid simC1).next (min simC1.spec.N simC1.len)
          ((rebuildGrid simC1).cellHead c) = _
      exact rebuildGrid_chain simC1 c _ le_rfl
    have hfil : ∀ c : ℕ,
        (chainList t0.next (min t0.spec.N t0.len) (t0.cellHead c)).filter
          (fun j => j ≠ 0) = [] := by
      intro c
      rw [hchain c, hN1]
      show (List.filter (fun p => decide (cellOf simC1 p = c)) [0]).reverse.filter
        (fun j => decide (j ≠ 0)) = []
      by_cases hc : cellOf simC1 0 = c
      · simp [hc]
      · simp [hc]
    rw [hg]
    split_ifs
    · exact hfil _
    · rfl
    · exact hfil _
  have hacc : accumForces t0 N = t0 := by
    rw [hN1]
    unfold accumForces
    rw [show List.range 1 = [0] from rfl]
    simp only [List.foldl_cons, List.foldl_nil]
    rw [hnil]
    rfl
  -- the integration phase on the single particle
  have ht0x : t0.x 0 = 9 / 10 := rfl
  have ht0vx : t0.vx 0 = 1 := rfl
  have ht0vy : t0.vy 0 = 0 := rfl
  have ht0fx : t0.fx 0 = 0 := by
    show (if 0 < N then (0:ℝ) else (rebuildGrid simC1).fx 0) = 0
    rw [if_pos (by omega)]
  have ht0fy : t0.fy 0 = 0 := by
    show (if 0 < N then (0:ℝ) else (rebuildGrid simC1).fy 0) = 0
    rw [if_pos (by omega)]
  have hdf : max 0 (1 - simC1.spec.drag * simC1.spec.dt) = 1 := by
    norm_num [simC1, specTriv]
  have hvm2 : simC1.spec.vMax * simC1.spec.vMax = 1 := by
    norm_num [simC1, specTriv]
  have hdt : simC1.spec.dt = 10 := rfl
  have hnvx : newVx simC1.spec (max 0 (1 - simC1.spec.drag * simC1.spec.dt))
      (simC1.spec.vMax * simC1.spec.vMax) t0 0 = 1 := by
    unfold newVx
    rw [ht0vx, ht0vy, ht0fx, ht0fy, hdf, hvm2, hdt]
    norm_num
  have hstep : (step simC1).x 0
      = (integratePhase simC1.spec N (accumForces t0 N)).1.x 0 := rfl
  rw [hstep, hacc]
  have hint : (integratePhase simC1.spec N t0).1.x 0
      = wrapCoord (t0.x 0 + simC1.spec.dt *
          newVx simC1.spec (max 0 (1 - simC1.spec.drag * simC1.spec.dt))
            (simC1.spec.vMax * simC1.spec.vMax) t0 0) := by
    unfold integratePhase
    rw [hN1, show List.range 1 = [0] from rfl]
    simp only [List.foldl_cons, List.foldl_nil]
    have := (integrateOne_x_m simC1.spec
      (max 0 (1 - simC1.spec.drag * simC1.spec.dt))
      (simC1.spec.vMax * simC1.spec.vMax) (t0, 0) 0).1
    rw [this, if_pos (show simC1.spec.wrap = true from rfl)]
  rw [hint, hnvx, ht0x, hdt]
  have : (9 : ℝ) / 10 + 10 * 1 = 109 / 10 := by norm_num
  rw [this]
  unfold wrapCoord WORLD_SIZE
  rw [if_neg (by norm_num), if_pos (by norm_num)]
  exact ⟨hside, by norm_num, by norm_num⟩

/-- C2 — counterexample.  On `simC2` (wrap mode, `gridDim = 1`,
`reach = 1`, so the scanned block spans `3 > gridDim` cells per axis) the
pair (0, 1) lies within the cutoff, yet particle 1 appears NINE times in
particle 0's neighbor visits: its forces would be accumulated nine times in
one frame. -/
theorem C2_counterexample :
    simC2.spec.wrap = true ∧
      0 < pr2 simC2 0 1 ∧ pr2 simC2 0 1 ≤ simC2.spec.R * simC2.spec.R ∧
      List.count 1 (neighborList (rebuildGrid simC2) 0) = 9 := by
  have hx0 : simC2.x 0 = -(1 / 4) := rfl
  have hx1 : simC2.x 1 = 1 / 4 := rfl
  have hy0 : simC2.y 0 = 0 := rfl
  have hy1 : simC2.y 1 = 0 := rfl
  have hdx : pdx simC2 0 1 = 1 / 2 := by
    unfold pdx torusDelta
    rw [if_pos (show simC2.spec.wrap = true from rfl), hx0, hx1]
    norm_num
  have hdy : pdy simC2 0 1 = 0 := by
    unfold pdy torusDelta
    rw [if_pos (show simC2.spec.wrap = true from rfl), hy0, hy1]
    norm_num
  have hpr2 : pr2 simC2 0 1 = 1 / 4 := by
    unfold pr2
    rw [hdx, hdy]
    norm_num
  have hcell : ∀ p, cellOf simC2 p = 0 := by
    intro p
    unfold cellOf
    rw [show simC2.gridDim = 1 from rfl]
    exact cellIndexOf_one _ _
  have hcount : List.count 1 (neighborList (rebuildGrid simC2) 0) = 9 := by
    unfold neighborList
    dsimp only
    rw [show (rebuildGrid simC2).spec = simC2.spec from rfl,
      show (rebuildGrid simC2).gridDim = 1 from rfl,
      show (rebuildGrid simC2).len = simC2.len from rfl]
    have hdiv : simC2.spec.R / simC2.spec.cellSize = 1 / 2 := by
      norm_num [simC2, specTriv]
    have hceil : ⌈(1 : ℝ) / 2⌉ = 1 := by
      rw [Int.ceil_eq_iff]
      constructor <;> norm_num
    rw [hdiv, hceil, show (max 1 (1 : ℤ)).toNat = 1 from rfl]
    have hchain := rebuildGrid_chain simC2 0 (min simC2.spec.N simC2.len) le_rfl
    rw [show List.range (min simC2.spec.N simC2.len) = [0, 1] from rfl] at hchain
    simp only [hcell] at hchain
    simp only [show simC2.spec.wrap = true from rfl, eq_self_iff_true, if_true,
      Nat.cast_one, Int.emod_one, zero_add, add_zero, zero_mul, Int.toNat_zero,
      hchain]
    decide
  exact ⟨rfl, by rw [hpr2]; norm_num,
    by rw [hpr2]; norm_num [simC2, specTriv], hcount⟩

/-! Matrix well-formedness at init (C8) and determinism (C6). -/

theorem genRingPreset_wf (K : ℕ) (a b c : ℝ) :
    matrixWF (genRingPreset K a b c) K := by
  unfold genRingPreset matrixWF
  constructor
  · simp
  · intro row hrow
    rw [List.mem_map] at hrow
    obtain ⟨i, -, rfl⟩ := hrow
    simp

theorem loadMatrixFromLS_wf (ls : Option LSRecord) (K : ℕ) (A : List (List ℝ))
    (h : loadMatrixFromLS ls K = some A) : matrixWF A K := by
  match ls with
  | none => exact absurd h (by unfold loadMatrixFromLS; simp)
  | some ob =>
    unfold loadMatrixFromLS at h
    dsimp only at h
    split_ifs at h with h1 h2
    all_goals cases h
    all_goals push_neg at h2
    all_goals exact ⟨h2.1, h2.2⟩

/-- C8 — amended.  Whenever `genMatrix` is set or a valid stored matrix
exists for the live `K`, `initSim` installs a well-formed `K`×`K` matrix
(the stored one or the ring preset) and never uses the supplied `spec.A`;
without both, `initSim` falls back to `spec.A` unvalidated. -/
theorem C8_matrix_regenerated (spec : SpecC) (ls : Option LSRecord)
    (so : Option ℕ)
    (h : spec.genMatrix = true ∨ (loadMatrixFromLS ls spec.K).isSome = true) :
    matrixWF (initSim spec ls so).A spec.K := by
  show matrixWF ((loadMatrixFromLS ls spec.K).getD
    (if spec.genMatrix then genRingPreset spec.K (9 / 10) (6 / 10) 0
      else spec.A)) spec.K
  cases hls : loadMatrixFromLS ls spec.K with
  | some A =>
    rw [Option.getD_some]
    exact loadMatrixFromLS_wf ls spec.K A hls
  | none =>
    rcases h with hg | hs
    · rw [Option.getD_none, if_pos hg]
      exact genRingPreset_wf spec.K _ _ _
    · rw [hls] at hs
      cases hs

/-- Witness for C8's amended theorem: `genMatrix` set, `K = 2`. -/
theorem C8_witness :
    (specGen.genMatrix = true ∨ (loadMatrixFromLS none specGen.K).isSome = true) ∧
      matrixWF (initSim specGen none none).A specGen.K :=
  ⟨Or.inl rfl, C8_matrix_regenerated specGen none none (Or.inl rfl)⟩

/-- C8 — counterexample.  With `genMatrix` unset, no stored matrix and a 1×1
`spec.A` under `K = 2`, `initSim` keeps the malformed matrix: the simulation
then runs with a rule matrix that is not `K`×`K`. -/
theorem C8_counterexample :
    specBad.K = 2 ∧ (initSim specBad none none).A = [[0]] ∧
      ((initSim specBad none none).A).length ≠ specBad.K := by
  have hA : (initSim specBad none none).A = [[0]] := rfl
  refine ⟨rfl, hA, ?_⟩
  rw [hA]
  decide

/-- C6.  Determinism: two runs from equal configurations, equal stored
matrices and equal seeds produce identical particle arrays after equally
many steps — `initSim` and `step` are pure functions of their inputs; the
only ambient inputs (the stored matrix, the seed) are explicit here, and the
core reads no clock. -/
theorem C6_deterministic (spec1 spec2 : SpecC) (ls1 ls2 : Option LSRecord)
    (seed1 seed2 n1 n2 : ℕ) (hs : spec1 = spec2) (hl : ls1 = ls2)
    (hd : seed1 = seed2) (hn : n1 = n2) :
    (runSim spec1 ls1 seed1 n1).x = (runSim spec2 ls2 seed2 n2).x ∧
      (runSim spec1 ls1 seed1 n1).y = (runSim spec2 ls2 seed2 n2).y ∧
      (runSim spec1 ls1 seed1 n1).vx = (runSim spec2 ls2 seed2 n2).vx ∧
      (runSim spec1 ls1 seed1 n1).vy = (runSim spec2 ls2 seed2 n2).vy ∧
      (runSim spec1 ls1 seed1 n1).type = (runSim spec2 ls2 seed2 n2).type := by
  subst hs
  subst hl
  subst hd
  subst hn
  exact ⟨rfl, rfl, rfl, rfl, rfl⟩

/-- Witness for C6 on the trivial configuration, seed 7, three frames. -/
theorem C6_witness :
    (runSim specTriv none 7 3).x = (runSim specTriv none 7 3).x ∧
      (runSim specTriv none 7 3).y = (runSim specTriv none 7 3).y ∧
      (runSim specTriv none 7 3).vx = (runSim specTriv none 7 3).vx ∧
      (runSim specTriv none 7 3).vy = (runSim specTriv none 7 3).vy ∧
      (runSim specTriv none 7 3).type = (runSim specTriv none 7 3).type :=
  C6_deterministic specTriv specTriv none none 7 7 3 3 rfl rfl rfl rfl

/-! Counting helpers for the exactly-once visitation property (C2). -/

theorem count_flatMap_indicator {α : Type} (l : List α) (f : α → List ℕ)
    (q : ℕ) (p : α → Prop) [DecidablePred p]
    (h : ∀ a ∈ l, List.count q (f a) = if p a then 1 else 0) :
    List.count q (l.flatMap f) = List.countP (fun a => decide (p a)) l := by
  induction l with
  | nil => rfl
  | cons a t ih =>
    rw [List.flatMap_cons, List.count_append, h a (List.mem_cons_self a t),
      ih fun b hb => h b (List.mem_cons_of_mem a hb), List.countP_cons]
    by_cases hp : p a <;> simp [hp] <;> omega

theorem countP_eq_one {l : List ℕ} {p : ℕ → Bool} {a : ℕ} (hnd : l.Nodup)
    (ha : a ∈ l) (hpa : p a = true) (huniq : ∀ b ∈ l, p b = true → b = a) :
    l.countP p = 1 := by
  have hcong : ∀ b ∈ l, p b = true ↔ (b == a) = true := by
    intro b hb
    by_cases hba : b = a
    · subst hba
      simp [hpa]
    · cases hpb : p b with
      | false => simp [hba]
      | true => exact absurd (huniq b hb hpb) hba
  calc l.countP p = l.countP (· == a) := List.countP_congr hcong
    _ = l.count a := rfl
    _ = 1 := List.count_eq_one_of_mem hnd ha

theorem countP_eq_zero_of {α : Type} (l : List α) (p : α → Bool)
    (h : ∀ a ∈ l, ¬ p a = true) : l.countP p = 0 := by
  induction l with
  | nil => rfl
  | cons a t ih =>
    rw [List.countP_cons, if_neg (h a (List.mem_cons_self a t)),
      ih fun b hb => h b (List.mem_cons_of_mem a hb)]

theorem emod_canon (a g : ℤ) : (a % g + g) % g = a % g := by
  have h := Int.add_mul_emod_self_left (a := a % g) (b := g) (c := 1)
  simpa using h

theorem eq_of_dvd_of_abs_lt {a b g : ℤ} (h : g ∣ (a - b)) (h1 : -g < a - b)
    (h2 : a - b < g) : a = b := by
  rcases h with ⟨k, hk⟩
  have hg : 0 < g := by omega
  rcases lt_trichotomy k 0 with hx | hx | hx
  · nlinarith
  · rw [hx, mul_zero] at hk
    omega
  · nlinarith

theorem floor_sub_le_ceil (u v : ℝ) : ⌊u⌋ - ⌊v⌋ ≤ ⌈u - v⌉ := by
  have h1 : (⌊u⌋ : ℝ) ≤ u := Int.floor_le u
  have h2 : v < ⌊v⌋ + 1 := Int.lt_floor_add_one v
  have h3 : u - v ≤ ⌈u - v⌉ := Int.le_ceil _
  have h4 : (⌊u⌋ - ⌊v⌋ : ℝ) < (⌈u - v⌉ : ℝ) + 1 := by push_cast; linarith
  exact Int.lt_add_one_iff.mp (by exact_mod_cast h4)

theorem cellCoord_nonneg (x : ℝ) (g : ℕ) : 0 ≤ cellCoord x g :=
  le_max_left 0 _

theorem cellCoord_lt (x : ℝ) (g : ℕ) (hg : 0 < g) : cellCoord x g < g := by
  unfold cellCoord
  have h := min_le_left ((g : ℤ) - 1) ⌊(x + 1) * (1 / 2) * (g : ℝ)⌋
  omega

/-- The uniquely-hit column/row count for the range-checked (non-wrap)
scan. -/
theorem countP_shift (reach : ℕ) (cx target : ℤ)
    (h1 : cx - reach ≤ target) (h2 : target ≤ cx + reach) :
    List.countP (fun d : ℕ => decide (cx + ((d : ℤ) - (reach : ℤ)) = target))
      (List.range (2 * reach + 1)) = 1 := by
  refine countP_eq_one (List.nodup_range _)
    (List.mem_range.mpr (show (target - cx + reach).toNat < 2 * reach + 1 by omega))
    (by rw [decide_eq_true_eq]; omega)
    ?_
  intro b hb hpb
  rw [List.mem_range] at hb
  rw [decide_eq_true_eq] at hpb
  omega

/-- The uniquely-hit column/row count for the wrapped scan, provided the
scanned span does not exceed the grid. -/
theorem countP_modshift (g : ℕ) (hg : 0 < g) (reach : ℕ)
    (hspan : 2 * reach + 1 ≤ g) (cx target m : ℤ)
    (hm1 : -(reach : ℤ) ≤ m) (hm2 : m ≤ reach) (hmt : (cx + m) % g = target) :
    List.countP (fun d : ℕ =>
        decide (((cx + ((d : ℤ) - (reach : ℤ))) % (g : ℤ) + (g : ℤ)) % (g : ℤ)
          = target))
      (List.range (2 * reach + 1)) = 1 := by
  have hgz : (0 : ℤ) < (g : ℤ) := by exact_mod_cast hg
  refine countP_eq_one (List.nodup_range _)
    (List.mem_range.mpr (show (m + reach).toNat < 2 * reach + 1 by omega))
    ?_ ?_
  · rw [decide_eq_true_eq]
    have : ((m + (reach : ℤ)).toNat : ℤ) = m + reach := Int.toNat_of_nonneg (by omega)
    rw [this, show cx + (m + (reach : ℤ) - (reach : ℤ)) = cx + m by ring,
      emod_canon]
    exact hmt
  · intro b hb hpb
    rw [List.mem_range] at hb
    rw [decide_eq_true_eq, emod_canon] at hpb
    have hmt' : (cx + ((b : ℤ) - (reach : ℤ))) % g = (cx + m) % g := by
      rw [hpb, hmt]
    have hdvd : (g : ℤ) ∣ ((cx + ((b : ℤ) - (reach : ℤ))) - (cx + m)) :=
      Int.dvd_of_emod_eq_zero
        (Int.emod_eq_emod_iff_emod_sub_eq_zero.mp hmt')
    have hb' : (b : ℤ) - (reach : ℤ) = m := by
      have := eq_of_dvd_of_abs_lt hdvd (by push_cast at hb ⊢; omega)
        (by push_cast at hb ⊢; omega)
      omega
    omega

/-- In the rebuilt grid, a safe-prefix particle occurs in a cell's chain
exactly when that cell is its own, and then exactly once. -/
theorem count_chain_rebuild (sim : Sim) (c : ℕ) (j : ℕ)
    (hj : j < min sim.spec.N sim.len) :
    List.count j (chainList (rebuildGrid sim).next (min sim.spec.N sim.len)
        ((rebuildGrid sim).cellHead c))
      = if cellOf sim j = c then 1 else 0 := by
  rw [rebuildGrid_chain sim c _ le_rfl, List.count_reverse]
  by_cases hc : cellOf sim j = c
  · rw [if_pos hc, List.count_filter (by simp [hc])]
    exact List.count_eq_one_of_mem (List.nodup_range _) (List.mem_range.mpr hj)
  · rw [if_neg hc, List.count_eq_zero]
    intro hmem
    rw [List.mem_filter] at hmem
    exact hc (by simpa using hmem.2)

/-- Row-major cell encoding is injective on in-range coordinate pairs. -/
theorem cellIndex_toNat_inj (g : ℕ) (hg : 0 < g) (nx ny mx my : ℤ)
    (h1 : 0 ≤ nx) (h2 : nx < g) (h3 : 0 ≤ ny) (h4 : ny < g)
    (h5 : 0 ≤ mx) (h6 : mx < g) (h7 : 0 ≤ my) (h8 : my < g) :
    (nx + ny * (g : ℤ)).toNat = (mx + my * (g : ℤ)).toNat
      ↔ (nx = mx ∧ ny = my) := by
  constructor
  · intro h
    have hgz : (0 : ℤ) < (g : ℤ) := by exact_mod_cast hg
    have he : nx + ny * (g : ℤ) = mx + my * (g : ℤ) := by
      have e1 : ((nx + ny * (g : ℤ)).toNat : ℤ) = nx + ny * (g : ℤ) :=
        Int.toNat_of_nonneg (add_nonneg h1 (mul_nonneg h3 hgz.le))
      have e2 : ((mx + my * (g : ℤ)).toNat : ℤ) = mx + my * (g : ℤ) :=
        Int.toNat_of_nonneg (add_nonneg h5 (mul_nonneg h7 hgz.le))
      rw [← e1, ← e2, h]
    have hdvd : (g : ℤ) ∣ (nx - mx) := ⟨my - ny, by linear_combination he⟩
    have hx : nx = mx := eq_of_dvd_of_abs_lt hdvd (by omega) (by omega)
    refine ⟨hx, ?_⟩
    have hmul : ny * (g : ℤ) = my * (g : ℤ) := by
      rw [hx] at he
      linarith
    exact mul_right_cancel₀ (by omega) hmul
  · rintro ⟨rfl, rfl⟩
    rfl

/-- One scanned cell of the rebuilt grid contributes partner `j` exactly
when the scanned in-range coordinates are `j`'s cell coordinates. -/
theorem chunk_count (sim : Sim) (i j : ℕ) (hij : j ≠ i)
    (hjN : j < min sim.spec.N sim.len) (hg : 0 < sim.gridDim)
    (nx ny : ℤ) (hnx0 : 0 ≤ nx) (hnxl : nx < sim.gridDim)
    (hny0 : 0 ≤ ny) (hnyl : ny < sim.gridDim) :
    List.count j ((chainList (rebuildGrid sim).next (min sim.spec.N sim.len)
        ((rebuildGrid sim).cellHead (nx + ny * (sim.gridDim : ℤ)).toNat)).filter
        (fun q => q ≠ i))
      = if (nx = cellCoord (sim.x j) sim.gridDim ∧
            ny = cellCoord (sim.y j) sim.gridDim) then 1 else 0 := by
  rw [List.count_filter (by simp [hij]), count_chain_rebuild sim _ j hjN]
  have hiff : (cellOf sim j = (nx + ny * (sim.gridDim : ℤ)).toNat)
      ↔ (nx = cellCoord (sim.x j) sim.gridDim ∧
          ny = cellCoord (sim.y j) sim.gridDim) := by
    have h := cellIndex_toNat_inj sim.gridDim hg
      (cellCoord (sim.x j) sim.gridDim) (cellCoord (sim.y j) sim.gridDim) nx ny
      (cellCoord_nonneg _ _) (cellCoord_lt _ _ hg)
      (cellCoord_nonneg _ _) (cellCoord_lt _ _ hg)
      hnx0 hnxl hny0 hnyl
    show ((cellCoord (sim.x j) sim.gridDim
        + cellCoord (sim.y j) sim.gridDim * (sim.gridDim : ℤ)).toNat
        = (nx + ny * (sim.gridDim : ℤ)).toNat) ↔ _
    rw [h]
    constructor
    · rintro ⟨ha, hb⟩
      exact ⟨ha.symm, hb.symm⟩
    · rintro ⟨ha, hb⟩
      exact ⟨ha.symm, hb.symm⟩
  rw [if_congr hiff rfl rfl]

/-- The range-checked (non-wrap) variant of `chunk_count`: out-of-range
scanned cells contribute nothing, matching the indicator. -/
theorem chunk_count_checked (sim : Sim) (i j : ℕ) (hij : j ≠ i)
    (hjN : j < min sim.spec.N sim.len) (hg : 0 < sim.gridDim)
    (nx0 ny0 : ℤ) :
    List.count j (if nx0 < 0 ∨ ny0 < 0 ∨ nx0 ≥ (sim.gridDim : ℤ)
          ∨ ny0 ≥ (sim.gridDim : ℤ) then ([] : List ℕ)
        else (chainList (rebuildGrid sim).next (min sim.spec.N sim.len)
          ((rebuildGrid sim).cellHead
            (nx0 + ny0 * (sim.gridDim : ℤ)).toNat)).filter (fun q => q ≠ i))
      = if (nx0 = cellCoord (sim.x j) sim.gridDim ∧
            ny0 = cellCoord (sim.y j) sim.gridDim) then 1 else 0 := by
  by_cases hguard : nx0 < 0 ∨ ny0 < 0 ∨ nx0 ≥ (sim.gridDim : ℤ)
      ∨ ny0 ≥ (sim.gridDim : ℤ)
  · have hcond : ¬(nx0 = cellCoord (sim.x j) sim.gridDim ∧
        ny0 = cellCoord (sim.y j) sim.gridDim) := by
      rintro ⟨rfl, rfl⟩
      have hb1 := cellCoord_nonneg (sim.x j) sim.gridDim
      have hb2 := cellCoord_lt (sim.x j) sim.gridDim hg
      have hb3 := cellCoord_nonneg (sim.y j) sim.gridDim
      have hb4 := cellCoord_lt (sim.y j) sim.gridDim hg
      omega
    rw [if_pos hguard, if_neg hcond]
    exact List.count_nil j
  · rw [if_neg hguard]
    push_neg at hguard
    exact chunk_count sim i j hij hjN hg nx0 ny0 hguard.1 hguard.2.2.1
      hguard.2.1 hguard.2.2.2

/-- Within the world and a positive grid, the clamp in `cellCoord` is
inactive below the upper world edge. -/
theorem cellCoord_eq_floor (x : ℝ) (g : ℕ) (hg : 0 < g) (h1 : -1 ≤ x)
    (h2 : x < 1) : cellCoord x g = ⌊(x + 1) * (1 / 2) * (g : ℝ)⌋ := by
  have hgR : (0 : ℝ) < (g : ℝ) := by exact_mod_cast hg
  have hu0 : (0 : ℝ) ≤ (x + 1) * (1 / 2) * (g : ℝ) :=
    mul_nonneg (mul_nonneg (by linarith) (by norm_num)) hgR.le
  have hfl0 : 0 ≤ ⌊(x + 1) * (1 / 2) * (g : ℝ)⌋ := Int.floor_nonneg.mpr hu0
  have hult : (x + 1) * (1 / 2) * (g : ℝ) < (g : ℝ) := by
    nlinarith [mul_pos (show (0 : ℝ) < 1 - x by linarith) hgR]
  have hflt : ⌊(x + 1) * (1 / 2) * (g : ℝ)⌋ < (g : ℤ) := by
    rw [Int.floor_lt]
    exact_mod_cast hult
  unfold cellCoord
  omega

/-- The raw difference equals the torus difference up to a whole number of
world periods. -/
theorem torusDelta_shift (a b : ℝ) :
    ∃ e : ℤ, b - a = torusDelta a b + 2 * (e : ℝ) := by
  unfold torusDelta WORLD_SIZE
  dsimp only
  split_ifs
  · exact ⟨1, by push_cast; ring⟩
  · exact ⟨-1, by push_cast; ring⟩
  · exact ⟨0, by push_cast; ring⟩

/-- Non-wrap coverage: two world-coordinates at most `R` apart land in
cells at most `⌈R / cellSize⌉` apart, when the grid exactly tiles the
world. -/
theorem nowrap_cover (g : ℕ) (cs R xi xj : ℝ)
    (hcs : 0 < cs) (hgcs : (g : ℝ) * cs = 2) (hR0 : 0 ≤ R)
    (hd1 : -R ≤ xj - xi) (hd2 : xj - xi ≤ R) :
    cellCoord xi g - ⌈R / cs⌉ ≤ cellCoord xj g ∧
      cellCoord xj g ≤ cellCoord xi g + ⌈R / cs⌉ := by
  have hgR : (0 : ℝ) ≤ (g : ℝ) := Nat.cast_nonneg g
  have hRcs : R / cs = R * (g : ℝ) / 2 := by
    rw [div_eq_div_iff (ne_of_gt hcs) (two_ne_zero)]
    linear_combination (-R) * hgcs
  have h1 := floor_sub_le_ceil ((xj + 1) * (1 / 2) * (g : ℝ))
    ((xi + 1) * (1 / 2) * (g : ℝ))
  have h2 : ⌈(xj + 1) * (1 / 2) * (g : ℝ) - (xi + 1) * (1 / 2) * (g : ℝ)⌉
      ≤ ⌈R / cs⌉ := by
    refine Int.ceil_le_ceil ?_
    rw [hRcs]
    nlinarith [mul_nonneg (show (0 : ℝ) ≤ R - (xj - xi) by linarith) hgR]
  have h3 := floor_sub_le_ceil ((xi + 1) * (1 / 2) * (g : ℝ))
    ((xj + 1) * (1 / 2) * (g : ℝ))
  have h4 : ⌈(xi + 1) * (1 / 2) * (g : ℝ) - (xj + 1) * (1 / 2) * (g : ℝ)⌉
      ≤ ⌈R / cs⌉ := by
    refine Int.ceil_le_ceil ?_
    rw [hRcs]
    nlinarith [mul_nonneg (show (0 : ℝ) ≤ R + (xj - xi) by linarith) hgR]
  have hC : 0 ≤ ⌈R / cs⌉ := Int.ceil_nonneg (div_nonneg hR0 (le_of_lt hcs))
  unfold cellCoord
  omega

/-- Wrap coverage: particle `j`'s cell is reached from particle `i`'s cell
by a modular offset of at most `⌈R / cellSize⌉` cells. -/
theorem wrap_cover (g : ℕ) (hg : 0 < g) (cs R xi xj : ℝ)
    (hcs : 0 < cs) (hgcs : (g : ℝ) * cs = 2) (hR0 : 0 ≤ R)
    (hd1 : -R ≤ torusDelta xi xj) (hd2 : torusDelta xi xj ≤ R)
    (hi1 : -1 ≤ xi) (hi2 : xi < 1) (hj1 : -1 ≤ xj) (hj2 : xj < 1) :
    ∃ m : ℤ, -⌈R / cs⌉ ≤ m ∧ m ≤ ⌈R / cs⌉ ∧
      (cellCoord xi g + m) % (g : ℤ) = cellCoord xj g := by
  obtain ⟨e, he⟩ := torusDelta_shift xi xj
  have hgR : (0 : ℝ) < (g : ℝ) := by exact_mod_cast hg
  have hRcs : R / cs = R * (g : ℝ) / 2 := by
    rw [div_eq_div_iff (ne_of_gt hcs) (two_ne_zero)]
    linear_combination (-R) * hgcs
  refine ⟨⌊(xi + 1) * (1 / 2) * (g : ℝ) + torusDelta xi xj * (g : ℝ) / 2⌋
      - ⌊(xi + 1) * (1 / 2) * (g : ℝ)⌋, ?_, ?_, ?_⟩
  · have h1 := floor_sub_le_ceil ((xi + 1) * (1 / 2) * (g : ℝ))
      ((xi + 1) * (1 / 2) * (g : ℝ) + torusDelta xi xj * (g : ℝ) / 2)
    have h2 : ⌈(xi + 1) * (1 / 2) * (g : ℝ)
        - ((xi + 1) * (1 / 2) * (g : ℝ) + torusDelta xi xj * (g : ℝ) / 2)⌉
        ≤ ⌈R / cs⌉ := by
      refine Int.ceil_le_ceil ?_
      rw [hRcs]
      nlinarith [mul_nonneg (show (0 : ℝ) ≤ R + torusDelta xi xj by linarith)
        hgR.le]
    omega
  · have h1 := floor_sub_le_ceil
      ((xi + 1) * (1 / 2) * (g : ℝ) + torusDelta xi xj * (g : ℝ) / 2)
      ((xi + 1) * (1 / 2) * (g : ℝ))
    have h2 : ⌈(xi + 1) * (1 / 2) * (g : ℝ) + torusDelta xi xj * (g : ℝ) / 2
        - (xi + 1) * (1 / 2) * (g : ℝ)⌉ ≤ ⌈R / cs⌉ := by
      refine Int.ceil_le_ceil ?_
      rw [hRcs]
      nlinarith [mul_nonneg (show (0 : ℝ) ≤ R - torusDelta xi xj by linarith)
        hgR.le]
    omega
  · have hfloor : cellCoord xj g
        = ⌊(xi + 1) * (1 / 2) * (g : ℝ) + torusDelta xi xj * (g : ℝ) / 2⌋
          + e * (g : ℤ) := by
      rw [cellCoord_eq_floor xj g hg hj1 hj2]
      have harg : (xj + 1) * (1 / 2) * (g : ℝ)
          = ((xi + 1) * (1 / 2) * (g : ℝ) + torusDelta xi xj * (g : ℝ) / 2)
            + ((e * (g : ℤ) : ℤ) : ℝ) := by
        push_cast
        linear_combination ((g : ℝ) / 2) * he
      rw [harg, Int.floor_add_int]
    have hb1 : 0 ≤ cellCoord xj g := cellCoord_nonneg xj g
    have hb2 : cellCoord xj g < (g : ℤ) := cellCoord_lt xj g hg
    rw [cellCoord_eq_floor xi g hg hi1 hi2]
    have heq : ⌊(xi + 1) * (1 / 2) * (g : ℝ)⌋
        + (⌊(xi + 1) * (1 / 2) * (g : ℝ) + torusDelta xi xj * (g : ℝ) / 2⌋
          - ⌊(xi + 1) * (1 / 2) * (g : ℝ)⌋)
        = cellCoord xj g + (-e) * (g : ℤ) := by
      rw [hfloor]
      ring
    rw [heq, Int.add_mul_emod_self]
    exact Int.emod_eq_of_lt hb1 hb2

/-- Under wrap, when the scanned window is no wider than the grid and `j`'s
cell is reachable by a modular offset of at most `reach` on each axis, the
scan lists `j` exactly once. -/
theorem wrap_count_one (sim : Sim) (i j : ℕ) (hij : j ≠ i)
    (hjN : j < min sim.spec.N sim.len) (hg : 0 < sim.gridDim) (rch : ℕ)
    (mx my : ℤ)
    (hmx1 : -(rch : ℤ) ≤ mx) (hmx2 : mx ≤ (rch : ℤ))
    (hmx3 : (cellCoord (sim.x i) sim.gridDim + mx) % (sim.gridDim : ℤ)
      = cellCoord (sim.x j) sim.gridDim)
    (hmy1 : -(rch : ℤ) ≤ my) (hmy2 : my ≤ (rch : ℤ))
    (hmy3 : (cellCoord (sim.y i) sim.gridDim + my) % (sim.gridDim : ℤ)
      = cellCoord (sim.y j) sim.gridDim)
    (hspan : 2 * rch + 1 ≤ sim.gridDim) :
    List.count j ((List.range (2 * rch + 1)).flatMap fun dyi =>
      (List.range (2 * rch + 1)).flatMap fun dxi =>
        (chainList (rebuildGrid sim).next (min sim.spec.N sim.len)
          ((rebuildGrid sim).cellHead
            ((((cellCoord (sim.x i) sim.gridDim + ((dxi : ℤ) - (rch : ℤ)))
                % (sim.gridDim : ℤ) + (sim.gridDim : ℤ)) % (sim.gridDim : ℤ)
             + ((cellCoord (sim.y i) sim.gridDim + ((dyi : ℤ) - (rch : ℤ)))
                % (sim.gridDim : ℤ) + (sim.gridDim : ℤ)) % (sim.gridDim : ℤ)
               * (sim.gridDim : ℤ)).toNat))).filter (fun q => q ≠ i)) = 1 := by
  have hgz : (0 : ℤ) < (sim.gridDim : ℤ) := by exact_mod_cast hg
  have hbound : ∀ a : ℤ,
      0 ≤ (a % (sim.gridDim : ℤ) + (sim.gridDim : ℤ)) % (sim.gridDim : ℤ) ∧
        (a % (sim.gridDim : ℤ) + (sim.gridDim : ℤ)) % (sim.gridDim : ℤ)
          < (sim.gridDim : ℤ) := by
    intro a
    rw [emod_canon]
    exact ⟨Int.emod_nonneg a (by omega), Int.emod_lt_of_pos a hgz⟩
  refine Eq.trans (count_flatMap_indicator _ _ j
    (fun dyi : ℕ =>
      ((cellCoord (sim.y i) sim.gridDim + ((dyi : ℤ) - (rch : ℤ)))
          % (sim.gridDim : ℤ) + (sim.gridDim : ℤ)) % (sim.gridDim : ℤ)
        = cellCoord (sim.y j) sim.gridDim) ?_) ?_
  · intro dyi hdyi
    dsimp only
    refine Eq.trans (count_flatMap_indicator _ _ j
      (fun dxi : ℕ =>
        ((cellCoord (sim.x i) sim.gridDim + ((dxi : ℤ) - (rch : ℤ)))
            % (sim.gridDim : ℤ) + (sim.gridDim : ℤ)) % (sim.gridDim : ℤ)
          = cellCoord (sim.x j) sim.gridDim ∧
        ((cellCoord (sim.y i) sim.gridDim + ((dyi : ℤ) - (rch : ℤ)))
            % (sim.gridDim : ℤ) + (sim.gridDim : ℤ)) % (sim.gridDim : ℤ)
          = cellCoord (sim.y j) sim.gridDim) ?_) ?_
    · intro dxi hdxi
      dsimp only
      have hbx := hbound (cellCoord (sim.x i) sim.gridDim
        + ((dxi : ℤ) - (rch : ℤ)))
      have hby := hbound (cellCoord (sim.y i) sim.gridDim
        + ((dyi : ℤ) - (rch : ℤ)))
      exact chunk_count sim i j hij hjN hg _ _ hbx.1 hbx.2 hby.1 hby.2
    · dsimp only
      by_cases hoy : ((cellCoord (sim.y i) sim.gridDim
          + ((dyi : ℤ) - (rch : ℤ))) % (sim.gridDim : ℤ)
          + (sim.gridDim : ℤ)) % (sim.gridDim : ℤ)
          = cellCoord (sim.y j) sim.gridDim
      · rw [if_pos hoy]
        refine Eq.trans (List.countP_congr ?_)
          (countP_modshift sim.gridDim hg rch hspan
            (cellCoord (sim.x i) sim.gridDim)
            (cellCoord (sim.x j) sim.gridDim) mx hmx1 hmx2 hmx3)
        intro d hd
        simp [hoy]
      · rw [if_neg hoy]
        refine countP_eq_zero_of _ _ ?_
        intro d hd hpd
        simp only [decide_eq_true_eq] at hpd
        exact hoy hpd.2
  · exact countP_modshift sim.gridDim hg rch hspan
      (cellCoord (sim.y i) sim.gridDim) (cellCoord (sim.y j) sim.gridDim)
      my hmy1 hmy2 hmy3

/-- Without wrap, when `j`'s cell is within `reach` cells of `i`'s on each
axis, the range-checked scan lists `j` exactly once. -/
theorem nowrap_count_one (sim : Sim) (i j : ℕ) (hij : j ≠ i)
    (hjN : j < min sim.spec.N sim.len) (hg : 0 < sim.gridDim) (rch : ℕ)
    (h1x : cellCoord (sim.x i) sim.gridDim - (rch : ℤ)
      ≤ cellCoord (sim.x j) sim.gridDim)
    (h2x : cellCoord (sim.x j) sim.gridDim
      ≤ cellCoord (sim.x i) sim.gridDim + (rch : ℤ))
    (h1y : cellCoord (sim.y i) sim.gridDim - (rch : ℤ)
      ≤ cellCoord (sim.y j) sim.gridDim)
    (h2y : cellCoord (sim.y j) sim.gridDim
      ≤ cellCoord (sim.y i) sim.gridDim + (rch : ℤ)) :
    List.count j ((List.range (2 * rch + 1)).flatMap fun dyi =>
      (List.range (2 * rch + 1)).flatMap fun dxi =>
        if (cellCoord (sim.x i) sim.gridDim + ((dxi : ℤ) - (rch : ℤ))) < 0
            ∨ (cellCoord (sim.y i) sim.gridDim + ((dyi : ℤ) - (rch : ℤ))) < 0
            ∨ (cellCoord (sim.x i) sim.gridDim + ((dxi : ℤ) - (rch : ℤ)))
              ≥ (sim.gridDim : ℤ)
            ∨ (cellCoord (sim.y i) sim.gridDim + ((dyi : ℤ) - (rch : ℤ)))
              ≥ (sim.gridDim : ℤ) then ([] : List ℕ)
        else (chainList (rebuildGrid sim).next (min sim.spec.N sim.len)
          ((rebuildGrid sim).cellHead
            ((cellCoord (sim.x i) sim.gridDim + ((dxi : ℤ) - (rch : ℤ)))
             + (cellCoord (sim.y i) sim.gridDim + ((dyi : ℤ) - (rch : ℤ)))
               * (sim.gridDim : ℤ)).toNat)).filter (fun q => q ≠ i)) = 1 := by
  refine Eq.trans (count_flatMap_indicator _ _ j
    (fun dyi : ℕ => cellCoord (sim.y i) sim.gridDim + ((dyi : ℤ) - (rch : ℤ))
      = cellCoord (sim.y j) sim.gridDim) ?_) ?_
  · intro dyi hdyi
    dsimp only
    refine Eq.trans (count_flatMap_indicator _ _ j
      (fun dxi : ℕ =>
        cellCoord (sim.x i) sim.gridDim + ((dxi : ℤ) - (rch : ℤ))
          = cellCoord (sim.x j) sim.gridDim ∧
        cellCoord (sim.y i) sim.gridDim + ((dyi : ℤ) - (rch : ℤ))
          = cellCoord (sim.y j) sim.gridDim) ?_) ?_
    · intro dxi hdxi
      dsimp only
      exact chunk_count_checked sim i j hij hjN hg _ _
    · dsimp only
      by_cases hoy : cellCoord (sim.y i) sim.gridDim + ((dyi : ℤ) - (rch : ℤ))
          = cellCoord (sim.y j) sim.gridDim
      · rw [if_pos hoy]
        refine Eq.trans (List.countP_congr ?_)
          (countP_shift rch (cellCoord (sim.x i) sim.gridDim)
            (cellCoord (sim.x j) sim.gridDim) (by omega) (by omega))
        intro d hd
        simp [hoy]
      · rw [if_neg hoy]
        refine countP_eq_zero_of _ _ ?_
        intro d hd hpd
        simp only [decide_eq_true_eq] at hpd
        exact hoy hpd.2
  · exact countP_shift rch (cellCoord (sim.y i) sim.gridDim)
      (cellCoord (sim.y j) sim.gridDim) (by omega) (by omega)

/-- C2, amended.  During one `step`, when the grid exactly tiles the world
(`gridDim * cellSize = 2`), every safe-prefix particle lies inside the
world (strictly inside the upper edge under wrap), and — under wrap — the
scanned window is no wider than the grid (`2*reach + 1 ≤ gridDim`), each
unordered pair within the cutoff is visited exactly once: the neighborhood
scan around `i` lists the partner `j` exactly once, so `fij`/`fji` and the
settling term are accumulated onto the two accumulators exactly once per
frame.  (`C2_counterexample` shows the count is 9 when the wrapped window
overshoots the grid.) -/
theorem C2_pair_visited_once (sim : Sim) (i j : ℕ)
    (hiN : i < min sim.spec.N sim.len) (hjN : j < min sim.spec.N sim.len)
    (hij : j ≠ i)
    (hcs : 0 < sim.spec.cellSize) (hR0 : 0 ≤ sim.spec.R)
    (hgrid : (sim.gridDim : ℝ) * sim.spec.cellSize = 2)
    (hin : ∀ p, p < min sim.spec.N sim.len →
      -1 ≤ sim.x p ∧ sim.x p ≤ 1 ∧ -1 ≤ sim.y p ∧ sim.y p ≤ 1)
    (hwlt : sim.spec.wrap = true → ∀ p, p < min sim.spec.N sim.len →
      sim.x p < 1 ∧ sim.y p < 1)
    (hspan : sim.spec.wrap = true →
      2 * (max 1 ⌈sim.spec.R / sim.spec.cellSize⌉).toNat + 1 ≤ sim.gridDim)
    (hclose : pr2 sim i j ≤ sim.spec.R * sim.spec.R) :
    List.count j (neighborList (rebuildGrid sim) i) = 1 := by
  have hgpos : 0 < sim.gridDim := by
    by_contra hgc
    push_neg at hgc
    have h0 : sim.gridDim = 0 := by omega
    rw [h0] at hgrid
    norm_num at hgrid
  have hreachZ : (((max 1 ⌈sim.spec.R / sim.spec.cellSize⌉).toNat : ℕ) : ℤ)
      = max 1 ⌈sim.spec.R / sim.spec.cellSize⌉ :=
    Int.toNat_of_nonneg (le_trans (by norm_num) (le_max_left _ _))
  have hceil_le : ⌈sim.spec.R / sim.spec.cellSize⌉
      ≤ (((max 1 ⌈sim.spec.R / sim.spec.cellSize⌉).toNat : ℕ) : ℤ) := by
    rw [hreachZ]
    exact le_max_right _ _
  have hdx2 : pdx sim i j * pdx sim i j ≤ sim.spec.R * sim.spec.R := by
    have h := mul_self_nonneg (pdy sim i j)
    unfold pr2 at hclose
    linarith
  have hdy2 : pdy sim i j * pdy sim i j ≤ sim.spec.R * sim.spec.R := by
    have h := mul_self_nonneg (pdx sim i j)
    unfold pr2 at hclose
    linarith
  have hdxb : -sim.spec.R ≤ pdx sim i j ∧ pdx sim i j ≤ sim.spec.R := by
    constructor <;> nlinarith [hdx2, hR0]
  have hdyb : -sim.spec.R ≤ pdy sim i j ∧ pdy sim i j ≤ sim.spec.R := by
    constructor <;> nlinarith [hdy2, hR0]
  obtain ⟨hxi1, hxi2, hyi1, hyi2⟩ := hin i hiN
  obtain ⟨hxj1, hxj2, hyj1, hyj2⟩ := hin j hjN
  obtain ⟨hgx, hgy, -, -, -, -, -, hgspec, hglen, hggdim, -, -, -, -⟩ :=
    rebuildGrid_frame sim
  unfold neighborList
  dsimp only
  rw [hgx, hgy, hgspec, hglen, hggdim]
  by_cases hw : sim.spec.wrap = true
  · simp only [hw, eq_self_iff_true, if_true]
    obtain ⟨hxilt, hyilt⟩ := hwlt hw i hiN
    obtain ⟨hxjlt, hyjlt⟩ := hwlt hw j hjN
    have hpdx : pdx sim i j = torusDelta (sim.x i) (sim.x j) := by
      unfold pdx
      rw [if_pos hw]
    have hpdy : pdy sim i j = torusDelta (sim.y i) (sim.y j) := by
      unfold pdy
      rw [if_pos hw]
    obtain ⟨mx, hmx1, hmx2, hmx3⟩ := wrap_cover sim.gridDim hgpos
      sim.spec.cellSize sim.spec.R (sim.x i) (sim.x j) hcs hgrid hR0
      (by rw [← hpdx]; exact hdxb.1) (by rw [← hpdx]; exact hdxb.2)
      hxi1 hxilt hxj1 hxjlt
    obtain ⟨my, hmy1, hmy2, hmy3⟩ := wrap_cover sim.gridDim hgpos
      sim.spec.cellSize sim.spec.R (sim.y i) (sim.y j) hcs hgrid hR0
      (by rw [← hpdy]; exact hdyb.1) (by rw [← hpdy]; exact hdyb.2)
      hyi1 hyilt hyj1 hyjlt
    exact wrap_count_one sim i j hij hjN hgpos
      ((max 1 ⌈sim.spec.R / sim.spec.cellSize⌉).toNat) mx my
      (by omega) (by omega) hmx3 (by omega) (by omega) hmy3 (hspan hw)
  · have hwf : sim.spec.wrap = false := by
      cases hb : sim.spec.wrap
      · rfl
      · exact absurd hb hw
    simp only [hwf, Bool.false_eq_true, if_false]
    have hpdx : pdx sim i j = sim.x j - sim.x i := by
      unfold pdx
      rw [hwf]
      simp
    have hpdy : pdy sim i j = sim.y j - sim.y i := by
      unfold pdy
      rw [hwf]
      simp
    obtain ⟨hcx1, hcx2⟩ := nowrap_cover sim.gridDim sim.spec.cellSize
      sim.spec.R (sim.x i) (sim.x j) hcs hgrid hR0
      (by rw [← hpdx]; exact hdxb.1) (by rw [← hpdx]; exact hdxb.2)
    obtain ⟨hcy1, hcy2⟩ := nowrap_cover sim.gridDim sim.spec.cellSize
      sim.spec.R (sim.y i) (sim.y j) hcs hgrid hR0
      (by rw [← hpdy]; exact hdyb.1) (by rw [← hpdy]; exact hdyb.2)
    exact nowrap_count_one sim i j hij hjN hgpos
      ((max 1 ⌈sim.spec.R / sim.spec.cellSize⌉).toNat)
      (by omega) (by omega) (by omega) (by omega)

/-- C2 witness: in the non-wrap two-particle configuration with an exactly
tiling single-cell grid, the within-cutoff partner is scanned exactly
once. -/
theorem C2_witness :
    (0 : ℝ) < simC2n.spec.cellSize ∧
      (simC2n.gridDim : ℝ) * simC2n.spec.cellSize = 2 ∧
      pr2 simC2n 0 1 ≤ simC2n.spec.R * simC2n.spec.R ∧
      List.count 1 (neighborList (rebuildGrid simC2n) 0) = 1 := by
  have hwF : simC2n.spec.wrap = false := rfl
  have hnw : ¬ simC2n.spec.wrap = true := by
    rw [hwF]
    simp
  have hcs : (0 : ℝ) < simC2n.spec.cellSize := by
    rw [show simC2n.spec.cellSize = 2 from rfl]
    norm_num
  have hR0 : (0 : ℝ) ≤ simC2n.spec.R := by
    rw [show simC2n.spec.R = 1 from rfl]
    norm_num
  have hgrid : (simC2n.gridDim : ℝ) * simC2n.spec.cellSize = 2 := by
    rw [show simC2n.gridDim = 1 from rfl, show simC2n.spec.cellSize = 2 from rfl]
    norm_num
  have hx0 : simC2n.x 0 = -(1 / 4) := rfl
  have hx1 : simC2n.x 1 = 1 / 4 := rfl
  have hpdx : pdx simC2n 0 1 = 1 / 2 := by
    unfold pdx
    rw [hwF]
    simp only [Bool.false_eq_true, if_false]
    rw [hx0, hx1]
    norm_num
  have hpdy : pdy simC2n 0 1 = 0 := by
    unfold pdy
    rw [hwF]
    simp only [Bool.false_eq_true, if_false]
    rw [show simC2n.y 1 = 0 from rfl, show simC2n.y 0 = 0 from rfl]
    norm_num
  have hclose : pr2 simC2n 0 1 ≤ simC2n.spec.R * simC2n.spec.R := by
    unfold pr2
    rw [hpdx, hpdy, show simC2n.spec.R = 1 from rfl]
    norm_num
  have hmin : min simC2n.spec.N simC2n.len = 2 := rfl
  have hin : ∀ p, p < min simC2n.spec.N simC2n.len →
      -1 ≤ simC2n.x p ∧ simC2n.x p ≤ 1 ∧ -1 ≤ simC2n.y p ∧ simC2n.y p ≤ 1 := by
    intro p hp
    have hx : simC2n.x p = if p = 0 then -(1 / 4 : ℝ) else 1 / 4 := rfl
    have hy : simC2n.y p = 0 := rfl
    rw [hx, hy]
    by_cases hp0 : p = 0
    · rw [if_pos hp0]
      norm_num
    · rw [if_neg hp0]
      norm_num
  exact ⟨hcs, hgrid, hclose,
    C2_pair_visited_once simC2n 0 1 (by rw [hmin]; norm_num)
      (by rw [hmin]; norm_num) (by norm_num) hcs hR0 hgrid hin
      (fun h => absurd h hnw) (fun h => absurd h hnw) hclose⟩

end ParticleLife
